import Mathlib

/-!
Verification of the litmusEU score aggregation and locking engine.

This file gives a shallow embedding, in Lean 4, of the scoring core of the
litmusEU competition-scoring application:

* the `Score` table rows (`ScoreEntry`) together with the queries the routes
  issue against them (lists of rows standing for query results, in database
  order);
* the aggregator `_calculate_results` from `app/admin/routes.py`;
* the per-judge breakdown builders from `app/admin/routes.py`
  (the `scoring` view and `_build_judge_breakdown`);
* the tabulator save/lock route `score_entry` from `app/tabulator/routes.py`
  and the judge ballot route `score` from `app/judge/routes.py`, as state
  transformers on the list of score rows;
* the PDF report helpers `_format_score`, `_ellipsize_to_width`,
  `_split_header_label` and `_fit_header_font_size` from `app/utils/pdf.py`,
  with the string-width metric of the rendering library kept abstract
  (a parameter `w`, resp. a size-indexed family `sw`).

Python floats are modelled as exact rationals (`ℚ`); machine identifiers as
`Nat`.  Each definition is translated from the corresponding source function;
definitions whose names end in `Spec` restate the natural-language
specification and are compared with the translated code.
-/

namespace LitmusEU

/-- A row of the `Criteria` table: `name`, `max_score`, `weight`,
all scoped to one competition (the scoping ids are kept by the callers). -/
structure Criterion where
  id : Nat
  name : String
  maxScore : ℚ
  weight : ℚ
  deriving Repr, DecidableEq

/-- A row of the `Contestant` table. -/
structure Contestant where
  id : Nat
  name : String
  deriving Repr, DecidableEq

/-- A row of the `Judge` table (the legacy single-competition link and the
many-to-many links are resolved by the callers into judge lists, as the
routes do via `_competition_judges_query`). -/
structure Judge where
  id : Nat
  name : String
  deriving Repr, DecidableEq

/-- A row of the `Score` table (`app/models.py`): composite key
(event, competition, judge, contestant, criteria), a raw score, the
per-row `locked` flag and the submitting user. -/
structure ScoreEntry where
  eventId : Nat
  competitionId : Nat
  judgeId : Nat
  contestantId : Nat
  criteriaId : Nat
  createdBy : Nat
  score : ℚ
  locked : Bool
  deriving Repr, DecidableEq

/-- The composite key of `uq_score_entry` in `app/models.py`. -/
def ScoreEntry.key (s : ScoreEntry) : Nat × Nat × Nat × Nat × Nat :=
  (s.eventId, s.competitionId, s.judgeId, s.contestantId, s.criteriaId)

/-- `Score.query.filter_by(event_id=…, competition_id=…, contestant_id=…,
criteria_id=…)` — the per-(contestant, criterion) query issued by
`_calculate_results`. -/
def scoresForPair (db : List ScoreEntry) (e c ct cr : Nat) : List ScoreEntry :=
  db.filter fun s =>
    s.eventId == e && s.competitionId == c && s.contestantId == ct && s.criteriaId == cr

/-- The four accumulators of the criteria loop in `_calculate_results`:
`total_weighted`, `total_raw`, `criteria_weighted_totals`,
`criteria_raw_totals` (the Python dicts as association lists in insertion
order). -/
structure ResultAcc where
  totalWeighted : ℚ
  totalRaw : ℚ
  criteriaWeightedTotals : List (Nat × ℚ)
  criteriaRawTotals : List (Nat × ℚ)
  deriving Repr, DecidableEq

/-- One row of the results list built by `_calculate_results`. -/
structure ResultRow where
  contestant : String
  total : ℚ
  totalRaw : ℚ
  criteriaTotals : List (Nat × ℚ)
  criteriaRawTotals : List (Nat × ℚ)
  deriving Repr, DecidableEq

/-- Body of the `for criteria_item in criteria_items` loop of
`_calculate_results`: average the fetched scores (`0.0` on an empty fetch),
weight by `weight / max_score` (`0.0` when `max_score` is falsy, i.e. zero),
and accumulate. -/
def resultStep (db : List ScoreEntry) (e c ct : Nat) (acc : ResultAcc)
    (cr : Criterion) : ResultAcc :=
  let scores := scoresForPair db e c ct cr.id
  let scoresSum := (scores.map (fun s => s.score)).sum
  let scoreCount := scores.length
  let avgRaw : ℚ := if scoreCount ≠ 0 then scoresSum / scoreCount else 0
  let weightedTotal : ℚ :=
    if cr.maxScore ≠ 0 then (avgRaw / cr.maxScore) * cr.weight else 0
  { totalWeighted := acc.totalWeighted + weightedTotal
    totalRaw := acc.totalRaw + avgRaw
    criteriaWeightedTotals := acc.criteriaWeightedTotals ++ [(cr.id, weightedTotal)]
    criteriaRawTotals := acc.criteriaRawTotals ++ [(cr.id, avgRaw)] }

/-- The per-contestant body of `_calculate_results`: run the criteria loop,
clamp `total_weighted` with `min(total_weighted, 100.0)`, and build the row
dict. -/
def contestantRow (db : List ScoreEntry) (e c : Nat) (criteriaItems : List Criterion)
    (ct : Contestant) : ResultRow :=
  let acc := criteriaItems.foldl (resultStep db e c ct.id)
    ⟨0, 0, [], []⟩
  { contestant := ct.name
    total := min acc.totalWeighted 100
    totalRaw := acc.totalRaw
    criteriaTotals := acc.criteriaWeightedTotals
    criteriaRawTotals := acc.criteriaRawTotals }

/-- `_calculate_results(event_id, competition_id)` from `app/admin/routes.py`.
`contestants` is the result of `Contestant.query.filter_by(competition_id=…)`
(the query carries no `order_by`, so the list is in database default order);
`criteriaItems` is the criteria query result (ordered by name by the caller).
The final `results.sort(key=…, reverse=True)` is Python's stable sort with a
reversed comparison, i.e. a stable merge sort under `b.total ≤ a.total`. -/
def calculate_results (db : List ScoreEntry) (e c : Nat)
    (contestants : List Contestant) (criteriaItems : List Criterion) : List ResultRow :=
  (contestants.map (contestantRow db e c criteriaItems)).mergeSort
    fun a b => decide (b.total ≤ a.total)

/-- Mean raw score of all existing entries across all judges for one
(contestant, criterion) pair, `0.0` when no entries exist — as the
specification words it. -/
def avgRawSpec (db : List ScoreEntry) (e c ct cr : Nat) : ℚ :=
  let scores := scoresForPair db e c ct cr
  if scores.length = 0 then 0 else (scores.map (fun s => s.score)).sum / scores.length

/-- The criterion's weighted contribution as the specification words it:
`(avgRaw / maxScore) * weight` when `maxScore > 0` and `0.0` otherwise. -/
def weightedSpec (db : List ScoreEntry) (e c ct : Nat) (cr : Criterion) : ℚ :=
  if 0 < cr.maxScore then (avgRawSpec db e c ct cr.id / cr.maxScore) * cr.weight else 0

/-- The result row as the specification describes it: per-criterion averages
and weighted contributions summed into `totalRaw` and `totalWeighted`, the
latter clamped to 100. -/
def contestantRowSpec (db : List ScoreEntry) (e c : Nat)
    (criteriaItems : List Criterion) (ct : Contestant) : ResultRow :=
  { contestant := ct.name
    total := min ((criteriaItems.map (weightedSpec db e c ct.id)).sum) 100
    totalRaw := (criteriaItems.map (fun cr => avgRawSpec db e c ct.id cr.id)).sum
    criteriaTotals := criteriaItems.map (fun cr => (cr.id, weightedSpec db e c ct.id cr))
    criteriaRawTotals := criteriaItems.map (fun cr => (cr.id, avgRawSpec db e c ct.id cr.id)) }

lemma resultStep_foldl (db : List ScoreEntry) (e c ct : Nat)
    (criteriaItems : List Criterion) (acc : ResultAcc)
    (hmax : ∀ cr ∈ criteriaItems, 0 ≤ cr.maxScore) :
    criteriaItems.foldl (resultStep db e c ct) acc =
      { totalWeighted := acc.totalWeighted +
          ((criteriaItems.map (fun cr => weightedSpec db e c ct cr)).sum)
        totalRaw := acc.totalRaw +
          ((criteriaItems.map (fun cr => avgRawSpec db e c ct cr.id)).sum)
        criteriaWeightedTotals := acc.criteriaWeightedTotals ++
          criteriaItems.map (fun cr => (cr.id, weightedSpec db e c ct cr))
        criteriaRawTotals := acc.criteriaRawTotals ++
          criteriaItems.map (fun cr => (cr.id, avgRawSpec db e c ct cr.id)) } := by
  induction criteriaItems generalizing acc with
  | nil => simp
  | cons cr rest ih =>
    have hcr : 0 ≤ cr.maxScore := hmax cr (List.mem_cons_self _ _)
    have hrest : ∀ x ∈ rest, 0 ≤ x.maxScore := fun x hx => hmax x (List.mem_cons_of_mem _ hx)
    simp only [List.foldl_cons, ih _ hrest]
    have havg : (if (scoresForPair db e c ct cr.id).length ≠ 0 then
        ((scoresForPair db e c ct cr.id).map (fun s => s.score)).sum /
          ((scoresForPair db e c ct cr.id).length : ℚ) else 0) =
        avgRawSpec db e c ct cr.id := by
      by_cases h : (scoresForPair db e c ct cr.id).length = 0
      · simp [avgRawSpec, h]
      · simp [avgRawSpec, h]
    have hw : (if cr.maxScore ≠ 0 then
        (avgRawSpec db e c ct cr.id / cr.maxScore) * cr.weight else 0) =
        weightedSpec db e c ct cr := by
      by_cases h : cr.maxScore = 0
      · simp [weightedSpec, h]
      · have hpos : 0 < cr.maxScore := lt_of_le_of_ne hcr (Ne.symm h)
        simp [weightedSpec, h, hpos]
    simp only [resultStep, List.map_cons, List.sum_cons]
    rw [havg, hw]
    simp only [ResultAcc.mk.injEq]
    refine ⟨by ring, by ring, by simp, by simp⟩

/-- `contestantRow` agrees with the specification-side row, provided every
criterion has a nonnegative `max_score` (the data-model invariant asserts
`maxScore > 0`; the code tests Python truthiness, i.e. `maxScore ≠ 0`). -/
lemma contestantRow_eq_spec (db : List ScoreEntry) (e c : Nat)
    (criteriaItems : List Criterion) (ct : Contestant)
    (hmax : ∀ cr ∈ criteriaItems, 0 ≤ cr.maxScore) :
    contestantRow db e c criteriaItems ct = contestantRowSpec db e c criteriaItems ct := by
  simp [contestantRow, resultStep_foldl db e c ct.id criteriaItems _ hmax,
    contestantRowSpec]

/-! ### The score ledger operations

`app/tabulator/routes.py` (`score_entry`) and `app/judge/routes.py` (`score`)
are embedded as state transformers on the list of `Score` rows.  The per-route
queries (`_competition_judges_query`, the criteria and contestant queries) are
carried in a configuration record, as the routes recompute them per request. -/

/-- The static per-competition context a request sees: the active event id,
the competition id, and the results of the judge / criteria / contestant
queries issued at the top of the routes. -/
structure Cfg where
  eventId : Nat
  competitionId : Nat
  judges : List Judge
  criteriaItems : List Criterion
  contestants : List Contestant

/-- `Score.query.filter_by(event_id=…, competition_id=…, contestant_id=…)
.count()` — the completeness count used by the lock branch. -/
def countFor (db : List ScoreEntry) (e c ct : Nat) : Nat :=
  (db.filter fun s =>
    s.eventId == e && s.competitionId == c && s.contestantId == ct).length

/-- `Score.query.filter_by(…, locked=True).count() > 0` — the tabulator
route's per-contestant lock test. -/
def lockedExists (db : List ScoreEntry) (e c ct : Nat) : Bool :=
  0 < (db.filter fun s =>
    s.eventId == e && s.competitionId == c && s.contestantId == ct && s.locked).length

/-- One iteration of the tabulator upsert loop: `Score.query.filter_by(key)
.first()` then either update `score` in place or `db.session.add` a fresh
unlocked row (appended at the end, as on insert). -/
def upsertScore (e c j ct cr u : Nat) (v : ℚ) : List ScoreEntry → List ScoreEntry
  | [] => [⟨e, c, j, ct, cr, u, v, false⟩]
  | s :: rest =>
    if s.eventId == e && s.competitionId == c && s.judgeId == j &&
        s.contestantId == ct && s.criteriaId == cr then
      { s with score := v } :: rest
    else s :: upsertScore e c j ct cr u v rest

/-- The whole `for criteria_item in criteria_items` upsert loop of the
tabulator route. -/
def upsertAll (cfg : Cfg) (j ct u : Nat) (values : Nat → ℚ)
    (db : List ScoreEntry) : List ScoreEntry :=
  cfg.criteriaItems.foldl (fun acc cr =>
    upsertScore cfg.eventId cfg.competitionId j ct cr.id u (values cr.id) acc) db

/-- `Score.query.filter_by(event_id, competition_id, contestant_id)
.update({"locked": True})`. -/
def lockAll (e c ct : Nat) (db : List ScoreEntry) : List ScoreEntry :=
  db.map fun s =>
    if s.eventId == e && s.competitionId == c && s.contestantId == ct then
      { s with locked := true }
    else s

/-- The WTForms validation of the tabulator form: the selected judge and
contestant must be among the offered choices and every criterion field must
pass `NumberRange(min=0, max=criteria_item.max_score)`. -/
def formValid (cfg : Cfg) (j ct : Nat) (values : Nat → ℚ) : Bool :=
  (cfg.judges.any fun x => x.id == j) &&
  (cfg.contestants.any fun x => x.id == ct) &&
  (cfg.criteriaItems.all fun cr =>
    decide (0 ≤ values cr.id) && decide (values cr.id ≤ cr.maxScore))

/-- Outcomes of the tabulator route (the flashed message / error class). -/
inductive TabOutcome where
  | rejectedInvalid
  | rejectedLocked
  | saved
  | rejectedIncomplete
  | lockedAll
  deriving Repr, DecidableEq

/-- `score_entry` from `app/tabulator/routes.py` (the accepted-POST path):
validate the form; reject when any locked row exists for the contestant;
upsert every criterion cell; on `submit_lock`, commit-and-reject with the
incomplete warning when fewer than `len(judges) * len(criteria_items)` rows
exist for the contestant (the just-upserted rows included, via autoflush),
else set `locked` on every row of the contestant. -/
def tabulatorSubmit (cfg : Cfg) (db : List ScoreEntry) (j ct u : Nat)
    (values : Nat → ℚ) (lock : Bool) : List ScoreEntry × TabOutcome :=
  if ¬ formValid cfg j ct values then (db, .rejectedInvalid)
  else if lockedExists db cfg.eventId cfg.competitionId ct then (db, .rejectedLocked)
  else
    let db1 := upsertAll cfg j ct u values db
    if lock then
      let expected := cfg.judges.length * cfg.criteriaItems.length
      let saved := countFor db1 cfg.eventId cfg.competitionId ct
      if saved < expected then (db1, .rejectedIncomplete)
      else (lockAll cfg.eventId cfg.competitionId ct db1, .lockedAll)
    else (db1, .saved)

/-- Outcomes of the judge ballot route. -/
inductive JudgeOutcome where
  | rejectedInvalid
  | rejectedAlready
  | submitted
  deriving Repr, DecidableEq

/-- Number of rows this judge already has for this contestant
(`existing_count` in the route). -/
def judgeEntryCount (db : List ScoreEntry) (e c j ct : Nat) : Nat :=
  (db.filter fun s =>
    s.eventId == e && s.competitionId == c && s.judgeId == j &&
      s.contestantId == ct).length

/-- The `scored_contestants` set of the judge route: when criteria and
contestants exist, the contestants for which this judge's row count equals
the number of criteria. -/
def judgeScoredContestants (cfg : Cfg) (db : List ScoreEntry) (j : Nat) :
    List Nat :=
  if !cfg.criteriaItems.isEmpty && !cfg.contestants.isEmpty then
    (cfg.contestants.filter fun ct =>
      judgeEntryCount db cfg.eventId cfg.competitionId j ct.id ==
        cfg.criteriaItems.length).map fun ct => ct.id
  else []

/-- The WTForms validation of the judge ballot form (`NumberRange` on every
criterion field). -/
def judgeFormValid (cfg : Cfg) (values : Nat → ℚ) : Bool :=
  cfg.criteriaItems.all fun cr =>
    decide (0 ≤ values cr.id) && decide (values cr.id ≤ cr.maxScore)

/-- `score` from `app/judge/routes.py` (the accepted-POST path): validate
the form, check the contestant id, reject (`Scores already submitted`) when
the contestant is in `scored_contestants` or when the judge already has any
row for the contestant, else insert one row per criterion — each created
with `locked=True`. -/
def judgeSubmit (cfg : Cfg) (db : List ScoreEntry) (j ct u : Nat)
    (values : Nat → ℚ) : List ScoreEntry × JudgeOutcome :=
  if ¬ judgeFormValid cfg values then (db, .rejectedInvalid)
  else if ¬ (cfg.contestants.any fun x => x.id == ct) then (db, .rejectedInvalid)
  else if ct ∈ judgeScoredContestants cfg db j then (db, .rejectedAlready)
  else if 0 < judgeEntryCount db cfg.eventId cfg.competitionId j ct then
    (db, .rejectedAlready)
  else
    (db ++ cfg.criteriaItems.map (fun cr =>
      ⟨cfg.eventId, cfg.competitionId, j, ct, cr.id, u, values cr.id, true⟩),
     .submitted)

/-- One accepted request against the ledger: either a tabulator save/lock or
a judge ballot (the judge route additionally requires the judge to be linked
to the competition, i.e. to appear in `_competition_judges_query`). -/
inductive Step (cfg : Cfg) : List ScoreEntry → List ScoreEntry → Prop where
  | tabulator (db : List ScoreEntry) (j ct u : Nat) (values : Nat → ℚ)
      (lock : Bool) :
      Step cfg db (tabulatorSubmit cfg db j ct u values lock).1
  | judgeBallot (db : List ScoreEntry) (j ct u : Nat) (values : Nat → ℚ)
      (hj : j ∈ cfg.judges.map Judge.id) :
      Step cfg db (judgeSubmit cfg db j ct u values).1

/-- The ledger states reachable from the empty table. -/
def Reachable (cfg : Cfg) (db : List ScoreEntry) : Prop :=
  Relation.ReflTransGen (Step cfg) [] db

/-! ### The report layout helpers (`app/utils/pdf.py`)

Text is a `List Char`; the rendering library's string-width measurement
(`pdf.get_string_width`, which depends on the font size set beforehand) is
kept abstract as a function `w : List Char → ℚ`, resp. a size-indexed family
`sw : Nat → List Char → ℚ` for the font-size search. -/

/-- The `"..."` marker of `_ellipsize_to_width`. -/
def ellipsisChars : List Char := ['.', '.', '.']

/-- The trimming loop of `_ellipsize_to_width`, processed from the end of
the string: on the reversed text, dropping the last character of the
current candidate is structural recursion on the head. -/
def trimRev (w : List Char → ℚ) (maxW : ℚ) : List Char → List Char
  | [] => []
  | ch :: rest =>
    if maxW < w ((ch :: rest).reverse ++ ellipsisChars) then trimRev w maxW rest
    else ch :: rest

/-- `while trimmed and pdf.get_string_width(trimmed + ellipsis) >
max_width: trimmed = trimmed[:-1]` — each iteration tests the current
candidate against the column width and drops its last character. -/
def trimLoop (w : List Char → ℚ) (maxW : ℚ) (t : List Char) : List Char :=
  (trimRev w maxW t.reverse).reverse

/-- `_ellipsize_to_width(pdf, text, max_width)`. -/
def ellipsize (w : List Char → ℚ) (text : List Char) (maxW : ℚ) : List Char :=
  if w text ≤ maxW then text
  else if maxW ≤ w ellipsisChars then ellipsisChars
  else trimLoop w maxW text ++ ellipsisChars

/-- `text.split()` (labels contain only single spaces as whitespace): split
on spaces and drop empty fragments. -/
def splitWords (text : List Char) : List (List Char) :=
  (text.splitOn ' ').filter fun word => !word.isEmpty

/-- `" ".join(words[:index])` / `" ".join(words[index:])`. -/
def joinWords (words : List (List Char)) : List Char :=
  List.intercalate [' '] words

/-- The best-split selection loop of `_split_header_label`: keep the first
candidate whose larger line width is strictly smaller than the best so far
(the Python loop initialises `best_split` with the first candidate and only
replaces it on `max_line < best_width`). -/
def chooseBest (w : List Char → ℚ) :
    List (List Char × List Char) → List Char × List Char
  | [] => ([], [])
  | p :: rest =>
    rest.foldl (fun acc q =>
      if max (w q.1) (w q.2) < max (w acc.1) (w acc.2) then q else acc) p

/-- `_split_header_label(pdf, text, max_width)`: one line when the whole
text fits; ellipsize a single word; otherwise try every word-boundary
partition, pick the min-max one, and ellipsize both lines to the column
width. -/
def split_header_label (w : List Char → ℚ) (text : List Char) (maxW : ℚ) :
    List Char × List Char :=
  if w text ≤ maxW then (text, [])
  else
    let words := splitWords text
    if words.length ≤ 1 then (ellipsize w text maxW, [])
    else
      let candidates := (List.range (words.length - 1)).map fun i =>
        (joinWords (words.take (i + 1)), joinWords (words.drop (i + 1)))
      let best := chooseBest w candidates
      (ellipsize w best.1 maxW, ellipsize w best.2 maxW)

/-- The per-label fit test inside `_fit_header_font_size`: split the label,
then fail when line one is wider than the column, or line two is nonempty
and wider than the column. -/
def labelFits (w : List Char → ℚ) (text : List Char) (width : ℚ) : Bool :=
  let lines := split_header_label w text width
  if width < w lines.1 then false
  else if !lines.2.isEmpty && decide (width < w lines.2) then false
  else true

/-- `range(max_size, min_size - 1, -1)`: the candidate sizes, descending. -/
def sizesDesc (maxSize minSize : Nat) : List Nat :=
  (List.range (maxSize + 1 - minSize)).map fun i => maxSize - i

/-- `_fit_header_font_size(pdf, labels, max_size, min_size)`: walk the sizes
downward, return the first at which every label passes `labelFits` under
that size's metric, else `min_size`. -/
def fit_header_font_size (sw : Nat → List Char → ℚ)
    (labels : List (List Char × ℚ)) (maxSize minSize : Nat) : Nat :=
  match (sizesDesc maxSize minSize).find? (fun size =>
      labels.all fun p => labelFits (sw size) p.1 p.2) with
  | some size => size
  | none => minSize

/-! ### Cell formatting (`_format_score` and the body-row loop) -/

/-- Round to the nearest integer, ties to even — the rounding Python's
fixed-point formatting applies (the binary double is modelled by the exact
rational it denotes). -/
def roundHalfEven (q : ℚ) : ℤ :=
  let f := ⌊q⌋
  let r := q - f
  if r < 1 / 2 then f
  else if 1 / 2 < r then f + 1
  else if f % 2 = 0 then f else f + 1

/-- Digit character for `d < 10`. -/
def digitChar (d : Nat) : Char := Char.ofNat (48 + d)

/-- `_format_score(value)`, i.e. `f"{value:.4f}"`: fixed-point with exactly
four fractional digits. -/
def format_score (q : ℚ) : String :=
  let m := roundHalfEven (q * 10000)
  let n := m.natAbs
  let sign := if m < 0 then "-" else ""
  let frac := n % 10000
  sign ++ toString (n / 10000) ++ "." ++ String.mk
    [digitChar (frac / 1000), digitChar (frac / 100 % 10),
     digitChar (frac / 10 % 10), digitChar (frac % 10)]

/-- Python `dict.get(key, 0)` on the dicts built by `_calculate_results`
(last insertion wins, hence the reversed search). -/
def lookupScore (l : List (Nat × ℚ)) (k : Nat) : ℚ :=
  ((l.reverse.find? fun p => p.1 == k).map fun p => p.2).getD 0

/-- `f"{_format_score(weighted)}({_format_score(raw)})"` for one criterion
cell. -/
def criterionCellText (row : ResultRow) (item : Criterion) : String :=
  format_score (lookupScore row.criteriaTotals item.id) ++ "(" ++
    format_score (lookupScore row.criteriaRawTotals item.id) ++ ")"

/-- `_ellipsize_to_width` on a `String`. -/
def ellipsizeS (w : List Char → ℚ) (s : String) (maxW : ℚ) : String :=
  String.mk (ellipsize w s.data maxW)

/-- The cells emitted for one body row of `render_results_pdf` (lines
188–212): the rank cell `str(index)`, the ellipsized contestant name, one
ellipsized composite cell per criterion, and the ellipsized
`_format_score(row["total"])` cell. -/
def bodyRowCells (w : List Char → ℚ)
    (contestantWidth criteriaWidth totalWidth : ℚ)
    (criteriaItems : List Criterion) (index : Nat) (row : ResultRow) :
    List String :=
  [toString index, ellipsizeS w row.contestant contestantWidth]
    ++ (criteriaItems.map fun item =>
        ellipsizeS w (criterionCellText row item) criteriaWidth)
    ++ [ellipsizeS w (format_score row.total) totalWidth]

/-- `for index, row in enumerate(results, start=1)`: all body rows. -/
def bodyRows (w : List Char → ℚ)
    (contestantWidth criteriaWidth totalWidth : ℚ)
    (criteriaItems : List Criterion) (results : List ResultRow) :
    List (List String) :=
  results.enum.map fun p =>
    bodyRowCells w contestantWidth criteriaWidth totalWidth criteriaItems
      (p.1 + 1) p.2

/-! ### Per-judge breakdowns (`scoring` view and `_build_judge_breakdown`) -/

/-- `Score.query.filter_by(event_id=…, competition_id=…)` — the one score
query both breakdown builders issue. -/
def scoresForEventComp (db : List ScoreEntry) (e c : Nat) : List ScoreEntry :=
  db.filter fun s => s.eventId == e && s.competitionId == c

/-- `score_lookup.get((judge_id, contestant_id, criteria_id))` on the dict
built from the query result (later rows overwrite earlier ones). -/
def scoreLookupGet (scores : List ScoreEntry) (j ct cr : Nat) : Option ℚ :=
  (scores.reverse.find? fun s =>
    s.judgeId == j && s.contestantId == ct && s.criteriaId == cr).map
    fun s => s.score

/-- One row of a per-judge breakdown table. -/
structure BreakdownRow where
  contestant : String
  criteriaScores : List (Nat × Option ℚ)
  total : ℚ
  deriving Repr, DecidableEq

/-- The shared per-contestant loop body of both breakdown builders: look up
each criterion's raw score, accumulate `(raw / max_score) * weight` when a
score exists and `max_score` is truthy, and clamp the judge's total with
`min(total_weighted, 100.0)`. -/
def breakdownRow (scores : List ScoreEntry) (criteriaItems : List Criterion)
    (j : Nat) (ct : Contestant) : BreakdownRow :=
  let total := criteriaItems.foldl (fun acc cr =>
    match scoreLookupGet scores j ct.id cr.id with
    | some r => if cr.maxScore ≠ 0 then acc + (r / cr.maxScore) * cr.weight else acc
    | none => acc) 0
  { contestant := ct.name
    criteriaScores := criteriaItems.map fun cr =>
      (cr.id, scoreLookupGet scores j ct.id cr.id)
    total := min total 100 }

/-- `_build_judge_breakdown(event_id, competition_id, criteria_items)` from
`app/admin/routes.py`: one table per judge of the competition. -/
def build_judge_breakdown (db : List ScoreEntry) (e c : Nat)
    (judges : List Judge) (contestants : List Contestant)
    (criteriaItems : List Criterion) : List (Judge × List BreakdownRow) :=
  let scores := scoresForEventComp db e c
  judges.map fun j => (j, contestants.map (breakdownRow scores criteriaItems j.id))

/-- The live `scoring` view's breakdown (`app/admin/routes.py`, lines
509–539): as `_build_judge_breakdown`, but judges without any submitted
score are skipped. -/
def scoring_breakdown (db : List ScoreEntry) (e c : Nat)
    (judges : List Judge) (contestants : List Contestant)
    (criteriaItems : List Criterion) : List (Judge × List BreakdownRow) :=
  let scores := scoresForEventComp db e c
  (judges.filter fun j => scores.any fun s => s.judgeId == j.id).map
    fun j => (j, contestants.map (breakdownRow scores criteriaItems j.id))

/-- The unclamped per-judge weighted total, written as a sum over criteria
(specification side). -/
def judgeWeightedTotal (scores : List ScoreEntry)
    (criteriaItems : List Criterion) (j ct : Nat) : ℚ :=
  (criteriaItems.map fun cr =>
    match scoreLookupGet scores j ct cr.id with
    | some r => if cr.maxScore ≠ 0 then (r / cr.maxScore) * cr.weight else 0
    | none => 0).sum

/-! ### Concrete instances used by the testable properties -/

/-- The criteria `{A: max 10, weight 60}, {B: max 5, weight 40}` of the
aggregation example. -/
def exCriteriaAB : List Criterion := [⟨1, "A", 10, 60⟩, ⟨2, "B", 5, 40⟩]

/-- A single contestant. -/
def exContestantX : Contestant := ⟨1, "X"⟩

/-- One judge's scores `A=8, B=4` for the contestant (averages are then
`8` and `4`). -/
def exScoresAB : List ScoreEntry :=
  [⟨1, 1, 1, 1, 1, 9, 8, false⟩, ⟨1, 1, 1, 1, 2, 9, 4, false⟩]

/-- Two criteria, each weight 70 and max 10 (weights sum to 140). -/
def exCriteria70 : List Criterion := [⟨1, "A", 10, 70⟩, ⟨2, "B", 10, 70⟩]

/-- Two judges both scoring the maximum 10 on both criteria. -/
def exScores70 : List ScoreEntry :=
  [⟨1, 1, 1, 1, 1, 9, 10, false⟩, ⟨1, 1, 1, 1, 2, 9, 10, false⟩,
   ⟨1, 1, 2, 1, 1, 9, 10, false⟩, ⟨1, 1, 2, 1, 2, 9, 10, false⟩]

/-- Two contestants in database (insertion) order `Bob`, `Alice` — not in
name order. -/
def exContestantsBobAlice : List Contestant := [⟨2, "Bob"⟩, ⟨1, "Alice"⟩]

/-! ### C1, C5, C6: the aggregator

The rational arithmetic of the embedding is evaluated inside closed proofs;
the four `Rat` kernels below are made reducible so that `decide` can run
them. -/

unseal Rat.add Rat.mul Rat.sub Rat.inv

/-- **C1.** For every event and competition, `_calculate_results` produces,
for each contestant and criterion, `avgRaw` = mean of the raw scores of all
existing entries across all judges for that (contestant, criterion) pair
(`0.0` when none exist), the weighted contribution
`(avgRaw / maxScore) * weight` when `maxScore > 0` and `0.0` otherwise, and
accumulates them into `totalRaw` and `totalWeighted` (the latter then
clamped); in particular the `{A: max 10, weight 60}, {B: max 5, weight 40}`
example with averages `A=8, B=4` yields `totalWeighted = 80` and
`totalRaw = 12`.  Stated via `contestantRowSpec`, the specification-side
row; the nonnegativity hypothesis is the data model's `maxScore > 0`
invariant (the code tests Python truthiness `maxScore ≠ 0`). -/
theorem claim_C1 (db : List ScoreEntry) (e c : Nat)
    (contestants : List Contestant) (criteriaItems : List Criterion)
    (hmax : ∀ cr ∈ criteriaItems, 0 ≤ cr.maxScore) :
    (∀ ct ∈ contestants,
      contestantRow db e c criteriaItems ct = contestantRowSpec db e c criteriaItems ct ∧
      contestantRow db e c criteriaItems ct ∈ calculate_results db e c contestants criteriaItems) ∧
    (calculate_results exScoresAB 1 1 [exContestantX] exCriteriaAB).map
      (fun r => (r.total, r.totalRaw)) = [(80, 12)] := by
  constructor
  · intro ct hct
    refine ⟨contestantRow_eq_spec db e c criteriaItems ct hmax, ?_⟩
    unfold calculate_results
    exact List.mem_mergeSort.mpr (List.mem_map_of_mem _ hct)
  · unfold calculate_results
    rw [show [exContestantX].map (contestantRow exScoresAB 1 1 exCriteriaAB) =
      [contestantRow exScoresAB 1 1 exCriteriaAB exContestantX] from rfl,
      List.mergeSort_singleton]
    decide

/-- Witness for C1 at the concrete example. -/
theorem claim_C1_witness :
    (calculate_results exScoresAB 1 1 [exContestantX] exCriteriaAB).map
      (fun r => (r.total, r.totalRaw)) = [(80, 12)] :=
  (claim_C1 exScoresAB 1 1 [exContestantX] exCriteriaAB (by decide)).2

/-- **C5.** `_calculate_results` clamps each contestant's `totalWeighted`
with `min(·, 100.0)` while `totalRaw` is never clamped; with two criteria of
weight 70 and max 10 both scored at the maximum by every judge the reported
`totalWeighted` is exactly `100`, not `140` (and `totalRaw` is the unclamped
`20`). -/
theorem claim_C5 (db : List ScoreEntry) (e c : Nat)
    (contestants : List Contestant) (criteriaItems : List Criterion)
    (hmax : ∀ cr ∈ criteriaItems, 0 ≤ cr.maxScore) :
    (∀ row ∈ calculate_results db e c contestants criteriaItems,
      ∃ ct ∈ contestants,
        row.total =
          min ((criteriaItems.map (fun cr => weightedSpec db e c ct.id cr)).sum) 100 ∧
        row.totalRaw =
          (criteriaItems.map (fun cr => avgRawSpec db e c ct.id cr.id)).sum) ∧
    (calculate_results exScores70 1 1 [exContestantX] exCriteria70).map
      (fun r => (r.total, r.totalRaw)) = [(100, 20)] := by
  constructor
  · intro row hrow
    rw [calculate_results, List.mem_mergeSort] at hrow
    obtain ⟨ct, hct, hrow⟩ := List.mem_map.mp hrow
    refine ⟨ct, hct, ?_⟩
    rw [← hrow, contestantRow_eq_spec db e c criteriaItems ct hmax]
    exact ⟨rfl, rfl⟩
  · unfold calculate_results
    rw [show [exContestantX].map (contestantRow exScores70 1 1 exCriteria70) =
      [contestantRow exScores70 1 1 exCriteria70 exContestantX] from rfl,
      List.mergeSort_singleton]
    decide

/-- Witness for C5 at the concrete clamping example. -/
theorem claim_C5_witness :
    (calculate_results exScores70 1 1 [exContestantX] exCriteria70).map
      (fun r => (r.total, r.totalRaw)) = [(100, 20)] :=
  (claim_C5 exScores70 1 1 [exContestantX] exCriteria70 (by decide)).2

/-- **C6, counterexample.** The claim says ties retain their original
relative order, *which is contestant-name order* — but the contestant query
of `_calculate_results` carries no `order_by`, so the input order is the
database's default order.  With the query returning `Bob` before `Alice`
(both rows tie at total `0`), the result keeps `Bob` first although
`"Alice" < "Bob"` in name order. -/
theorem claim_C6_counterexample :
    (calculate_results [] 1 1 exContestantsBobAlice []).map (fun r => r.contestant) =
      ["Bob", "Alice"] ∧
    (calculate_results [] 1 1 exContestantsBobAlice []).map (fun r => r.total) = [0, 0] ∧
    "Alice" < "Bob" := by
  have h : calculate_results [] 1 1 exContestantsBobAlice [] =
      exContestantsBobAlice.map (contestantRow [] 1 1 []) := by
    unfold calculate_results
    exact List.mergeSort_of_sorted (by decide)
  refine ⟨by rw [h]; decide, by rw [h]; decide, ?_⟩
  rw [String.lt_iff_toList_lt]; decide

/-- **C6, amended.** `_calculate_results` sorts its rows in descending order
of `totalWeighted` with a stable sort, and contestants with identical
`totalWeighted` retain their original relative order — the order in which
the (unordered) contestant query returned them, which is not necessarily
contestant-name order. -/
theorem claim_C6_amended (db : List ScoreEntry) (e c : Nat)
    (contestants : List Contestant) (criteriaItems : List Criterion) :
    (calculate_results db e c contestants criteriaItems).Pairwise
      (fun a b => b.total ≤ a.total) ∧
    (calculate_results db e c contestants criteriaItems).Perm
      (contestants.map (contestantRow db e c criteriaItems)) ∧
    (∀ a b : ResultRow, a.total = b.total →
      [a, b].Sublist (contestants.map (contestantRow db e c criteriaItems)) →
      [a, b].Sublist (calculate_results db e c contestants criteriaItems)) := by
  have htrans : ∀ a b x : ResultRow,
      (fun a b => decide (b.total ≤ a.total)) a b →
      (fun a b => decide (b.total ≤ a.total)) b x →
      (fun a b => decide (b.total ≤ a.total)) a x := by
    intro a b x hab hbx
    simp only [decide_eq_true_eq] at *
    exact le_trans hbx hab
  have htotal : ∀ a b : ResultRow,
      ((fun a b => decide (b.total ≤ a.total)) a b ||
       (fun a b => decide (b.total ≤ a.total)) b a) = true := by
    intro a b
    simp only [Bool.or_eq_true, decide_eq_true_eq]
    exact le_total b.total a.total
  refine ⟨?_, ?_, ?_⟩
  · have := List.sorted_mergeSort htrans htotal
      (contestants.map (contestantRow db e c criteriaItems))
    unfold calculate_results
    exact this.imp (by intro a b h; simpa using h)
  · exact List.mergeSort_perm _ _
  · intro a b heq hsub
    unfold calculate_results
    exact List.pair_sublist_mergeSort htrans htotal (by simp [heq]) hsub

/-- Witness for C6 (amended) at the tied `Bob`/`Alice` instance. -/
theorem claim_C6_amended_witness :
    [contestantRow [] 1 1 [] ⟨2, "Bob"⟩, contestantRow [] 1 1 [] ⟨1, "Alice"⟩].Sublist
      (calculate_results [] 1 1 exContestantsBobAlice []) :=
  (claim_C6_amended [] 1 1 exContestantsBobAlice []).2.2
    (contestantRow [] 1 1 [] ⟨2, "Bob"⟩) (contestantRow [] 1 1 [] ⟨1, "Alice"⟩)
    (by decide) (by decide)

/-! ### Ledger lemmas -/

lemma keyMatch_iff (s : ScoreEntry) (e c j ct cr : Nat) :
    (s.eventId == e && s.competitionId == c && s.judgeId == j &&
      s.contestantId == ct && s.criteriaId == cr) = true ↔
      s.key = (e, c, j, ct, cr) := by
  simp [ScoreEntry.key, Prod.ext_iff, and_assoc]

lemma upsertScore_mem (e c j ct cr u : Nat) (v : ℚ) :
    ∀ (db : List ScoreEntry), ∀ s ∈ upsertScore e c j ct cr u v db,
      s ∈ db ∨ (s.eventId = e ∧ s.competitionId = c ∧ s.judgeId = j ∧
        s.contestantId = ct ∧ s.criteriaId = cr) := by
  intro db
  induction db with
  | nil =>
    intro s hs
    simp only [upsertScore, List.mem_singleton] at hs
    subst hs
    right; exact ⟨rfl, rfl, rfl, rfl, rfl⟩
  | cons t rest ih =>
    intro s hs
    rw [upsertScore] at hs
    by_cases h : (t.eventId == e && t.competitionId == c && t.judgeId == j &&
        t.contestantId == ct && t.criteriaId == cr) = true
    · rw [if_pos h] at hs
      rcases List.mem_cons.mp hs with h1 | h1
      · subst h1
        have hk := (keyMatch_iff t e c j ct cr).mp h
        rw [ScoreEntry.key, Prod.ext_iff] at hk
        right
        simpa [Prod.ext_iff] using hk
      · exact Or.inl (List.mem_cons_of_mem _ h1)
    · rw [if_neg h] at hs
      rcases List.mem_cons.mp hs with h1 | h1
      · exact Or.inl (h1 ▸ List.mem_cons_self _ _)
      · rcases ih s h1 with h2 | h2
        · exact Or.inl (List.mem_cons_of_mem _ h2)
        · exact Or.inr h2

lemma upsertScore_keys (e c j ct cr u : Nat) (v : ℚ) :
    ∀ (db : List ScoreEntry), ∀ k ∈ (upsertScore e c j ct cr u v db).map ScoreEntry.key,
      k ∈ db.map ScoreEntry.key ∨ k = (e, c, j, ct, cr) := by
  intro db k hk
  obtain ⟨s, hs, rfl⟩ := List.mem_map.mp hk
  rcases upsertScore_mem e c j ct cr u v db s hs with h | h
  · exact Or.inl (List.mem_map_of_mem _ h)
  · right
    obtain ⟨h1, h2, h3, h4, h5⟩ := h
    simp [ScoreEntry.key, h1, h2, h3, h4, h5]

lemma upsertScore_keys_nodup (e c j ct cr u : Nat) (v : ℚ) :
    ∀ (db : List ScoreEntry), (db.map ScoreEntry.key).Nodup →
      ((upsertScore e c j ct cr u v db).map ScoreEntry.key).Nodup := by
  intro db
  induction db with
  | nil => intro _; simp [upsertScore]
  | cons t rest ih =>
    intro hnd
    rw [List.map_cons, List.nodup_cons] at hnd
    rw [upsertScore]
    by_cases h : (t.eventId == e && t.competitionId == c && t.judgeId == j &&
        t.contestantId == ct && t.criteriaId == cr) = true
    · rw [if_pos h, List.map_cons, List.nodup_cons]
      exact ⟨by simpa [ScoreEntry.key] using hnd.1, hnd.2⟩
    · rw [if_neg h, List.map_cons, List.nodup_cons]
      refine ⟨?_, ih hnd.2⟩
      intro hmem
      rcases upsertScore_keys e c j ct cr u v rest _ hmem with h1 | h1
      · exact hnd.1 h1
      · have : t.key = (e, c, j, ct, cr) := h1
        exact h ((keyMatch_iff t e c j ct cr).mpr this)

lemma upsertScore_preserve (e c j ct cr u : Nat) (v : ℚ) :
    ∀ (db : List ScoreEntry), ∀ s ∈ db, s.key ≠ (e, c, j, ct, cr) →
      s ∈ upsertScore e c j ct cr u v db := by
  intro db
  induction db with
  | nil => intro s hs; exact absurd hs (List.not_mem_nil s)
  | cons t rest ih =>
    intro s hs hne
    rw [upsertScore]
    by_cases h : (t.eventId == e && t.competitionId == c && t.judgeId == j &&
        t.contestantId == ct && t.criteriaId == cr) = true
    · rw [if_pos h]
      rcases List.mem_cons.mp hs with h1 | h1
      · exact absurd ((keyMatch_iff t e c j ct cr).mp h) (h1 ▸ hne)
      · exact List.mem_cons_of_mem _ h1
    · rw [if_neg h]
      rcases List.mem_cons.mp hs with h1 | h1
      · exact h1 ▸ List.mem_cons_self _ _
      · exact List.mem_cons_of_mem _ (ih s h1 hne)

/-- The "no row of this contestant is locked" property the tabulator route
establishes before upserting. -/
def UnlockedFor (e c ct : Nat) (db : List ScoreEntry) : Prop :=
  ∀ s ∈ db, s.eventId = e → s.competitionId = c → s.contestantId = ct →
    s.locked = false

lemma upsertScore_unlockedFor (e c j ct cr u : Nat) (v : ℚ)
    (db : List ScoreEntry) (h : UnlockedFor e c ct db) :
    UnlockedFor e c ct (upsertScore e c j ct cr u v db) := by
  induction db with
  | nil =>
    intro s hs _ _ _
    simp only [upsertScore, List.mem_singleton] at hs
    subst hs; rfl
  | cons t rest ih =>
    intro s hs h1 h2 h3
    rw [upsertScore] at hs
    by_cases hmatch : (t.eventId == e && t.competitionId == c && t.judgeId == j &&
        t.contestantId == ct && t.criteriaId == cr) = true
    · rw [if_pos hmatch] at hs
      rcases List.mem_cons.mp hs with h4 | h4
      · subst h4
        exact h t (List.mem_cons_self _ _) h1 h2 h3
      · exact h s (List.mem_cons_of_mem _ h4) h1 h2 h3
    · rw [if_neg hmatch] at hs
      rcases List.mem_cons.mp hs with h4 | h4
      · exact h s (h4 ▸ List.mem_cons_self _ _) h1 h2 h3
      · exact ih (fun x hx => h x (List.mem_cons_of_mem _ hx)) s h4 h1 h2 h3

lemma upsertScore_written (e c j ct cr u : Nat) (v : ℚ)
    (db : List ScoreEntry) (h : UnlockedFor e c ct db) :
    ∃ s ∈ upsertScore e c j ct cr u v db,
      s.key = (e, c, j, ct, cr) ∧ s.score = v ∧ s.locked = false := by
  induction db with
  | nil =>
    refine ⟨⟨e, c, j, ct, cr, u, v, false⟩, ?_, rfl, rfl, rfl⟩
    simp [upsertScore]
  | cons t rest ih =>
    rw [upsertScore]
    by_cases hmatch : (t.eventId == e && t.competitionId == c && t.judgeId == j &&
        t.contestantId == ct && t.criteriaId == cr) = true
    · rw [if_pos hmatch]
      have hk := (keyMatch_iff t e c j ct cr).mp hmatch
      have hct : t.contestantId = ct := by
        rw [ScoreEntry.key, Prod.ext_iff] at hk
        simp [Prod.ext_iff] at hk
        exact hk.2.2.2.1
      have he : t.eventId = e := by
        rw [ScoreEntry.key, Prod.ext_iff] at hk
        simp [Prod.ext_iff] at hk
        exact hk.1
      have hc : t.competitionId = c := by
        rw [ScoreEntry.key, Prod.ext_iff] at hk
        simp [Prod.ext_iff] at hk
        exact hk.2.1
      refine ⟨{ t with score := v }, List.mem_cons_self _ _, ?_, rfl, ?_⟩
      · simpa [ScoreEntry.key] using hk
      · exact h t (List.mem_cons_self _ _) he hc hct
    · rw [if_neg hmatch]
      obtain ⟨s, hs, hs2⟩ := ih (fun x hx => h x (List.mem_cons_of_mem _ hx))
      exact ⟨s, List.mem_cons_of_mem _ hs, hs2⟩

lemma upsertFold_mem (e c j ct u : Nat) (values : Nat → ℚ) :
    ∀ (L : List Criterion) (db : List ScoreEntry),
      ∀ s ∈ L.foldl (fun acc cr => upsertScore e c j ct cr.id u (values cr.id) acc) db,
        s ∈ db ∨ (s.eventId = e ∧ s.competitionId = c ∧ s.judgeId = j ∧
          s.contestantId = ct ∧ s.criteriaId ∈ L.map Criterion.id) := by
  intro L
  induction L with
  | nil => intro db s hs; exact Or.inl hs
  | cons cr rest ih =>
    intro db s hs
    rw [List.foldl_cons] at hs
    rcases ih _ s hs with h | h
    · rcases upsertScore_mem e c j ct cr.id u (values cr.id) db s h with h1 | h1
      · exact Or.inl h1
      · right
        exact ⟨h1.1, h1.2.1, h1.2.2.1, h1.2.2.2.1, by simp [h1.2.2.2.2]⟩
    · right
      exact ⟨h.1, h.2.1, h.2.2.1, h.2.2.2.1, List.mem_cons_of_mem _ h.2.2.2.2⟩

lemma upsertFold_keys_nodup (e c j ct u : Nat) (values : Nat → ℚ) :
    ∀ (L : List Criterion) (db : List ScoreEntry),
      (db.map ScoreEntry.key).Nodup →
      ((L.foldl (fun acc cr => upsertScore e c j ct cr.id u (values cr.id) acc)
        db).map ScoreEntry.key).Nodup := by
  intro L
  induction L with
  | nil => intro db h; exact h
  | cons cr rest ih =>
    intro db h
    rw [List.foldl_cons]
    exact ih _ (upsertScore_keys_nodup e c j ct cr.id u (values cr.id) db h)

lemma upsertFold_preserve (e c j ct u : Nat) (values : Nat → ℚ) :
    ∀ (L : List Criterion) (db : List ScoreEntry), ∀ s ∈ db,
      (∀ cr ∈ L, s.key ≠ (e, c, j, ct, cr.id)) →
      s ∈ L.foldl (fun acc cr => upsertScore e c j ct cr.id u (values cr.id) acc) db := by
  intro L
  induction L with
  | nil => intro db s hs _; exact hs
  | cons cr rest ih =>
    intro db s hs hne
    rw [List.foldl_cons]
    exact ih _ s
      (upsertScore_preserve e c j ct cr.id u (values cr.id) db s hs
        (hne cr (List.mem_cons_self _ _)))
      (fun x hx => hne x (List.mem_cons_of_mem _ hx))

lemma upsertFold_unlockedFor (e c j ct u : Nat) (values : Nat → ℚ) :
    ∀ (L : List Criterion) (db : List ScoreEntry), UnlockedFor e c ct db →
      UnlockedFor e c ct
        (L.foldl (fun acc cr => upsertScore e c j ct cr.id u (values cr.id) acc) db) := by
  intro L
  induction L with
  | nil => intro db h; exact h
  | cons cr rest ih =>
    intro db h
    rw [List.foldl_cons]
    exact ih _ (upsertScore_unlockedFor e c j ct cr.id u (values cr.id) db h)

lemma upsertFold_written (e c j ct u : Nat) (values : Nat → ℚ) :
    ∀ (L : List Criterion) (db : List ScoreEntry),
      (L.map Criterion.id).Nodup → UnlockedFor e c ct db →
      ∀ cr ∈ L,
        ∃ s ∈ L.foldl (fun acc cr => upsertScore e c j ct cr.id u (values cr.id) acc) db,
          s.key = (e, c, j, ct, cr.id) ∧ s.score = values cr.id ∧ s.locked = false := by
  intro L
  induction L with
  | nil => intro db _ _ cr hcr; exact absurd hcr (List.not_mem_nil cr)
  | cons cr0 rest ih =>
    intro db hnd hun cr hcr
    rw [List.map_cons, List.nodup_cons] at hnd
    rw [List.foldl_cons]
    rcases List.mem_cons.mp hcr with h | h
    · subst h
      obtain ⟨s, hs, hk, hv, hl⟩ :=
        upsertScore_written e c j ct cr.id u (values cr.id) db hun
      refine ⟨s, ?_, hk, hv, hl⟩
      apply upsertFold_preserve
      · exact hs
      · intro x hx
        rw [hk]
        intro hcontra
        have : cr.id = x.id := by
          have := congrArg (fun p : Nat × Nat × Nat × Nat × Nat => p.2.2.2.2) hcontra
          simpa using this
        exact hnd.1 (this ▸ List.mem_map_of_mem Criterion.id hx)
    · exact ih _ hnd.2
        (upsertScore_unlockedFor e c j ct cr0.id u (values cr0.id) db hun) cr h

lemma countFor_le (db : List ScoreEntry) (e c ct : Nat) (js cs : List Nat)
    (hkeys : (db.map ScoreEntry.key).Nodup)
    (hmem : ∀ s ∈ db, s.eventId = e → s.competitionId = c → s.contestantId = ct →
      s.judgeId ∈ js ∧ s.criteriaId ∈ cs) :
    countFor db e c ct ≤ js.length * cs.length := by
  set l := db.filter (fun s =>
    s.eventId == e && s.competitionId == c && s.contestantId == ct) with hl
  have hsub : l.Sublist db := List.filter_sublist db
  have hcond : ∀ s ∈ l, s.eventId = e ∧ s.competitionId = c ∧ s.contestantId = ct := by
    intro s hs
    have := List.of_mem_filter hs
    simpa [and_assoc] using this
  have hkeysl : (l.map ScoreEntry.key).Nodup :=
    (hsub.map ScoreEntry.key).nodup hkeys
  have hmapeq : l.map ScoreEntry.key =
      (l.map (fun s => (s.judgeId, s.criteriaId))).map
        (fun p => (e, c, p.1, ct, p.2)) := by
    rw [List.map_map]
    apply List.map_congr_left
    intro s hs
    obtain ⟨h1, h2, h3⟩ := hcond s hs
    simp [ScoreEntry.key, h1, h2, h3, Function.comp]
  have hpairs : (l.map (fun s => (s.judgeId, s.criteriaId))).Nodup := by
    apply List.Nodup.of_map (f := fun p : Nat × Nat => ((e, c, p.1, ct, p.2) :
      Nat × Nat × Nat × Nat × Nat))
    rw [← hmapeq]
    exact hkeysl
  have hsubset : (l.map (fun s => (s.judgeId, s.criteriaId))) ⊆ js ×ˢ cs := by
    intro p hp
    obtain ⟨s, hs, rfl⟩ := List.mem_map.mp hp
    obtain ⟨h1, h2, h3⟩ := hcond s hs
    rcases hmem s (hsub.subset hs) h1 h2 h3 with ⟨hj, hc⟩
    exact List.mem_product.mpr ⟨hj, hc⟩
  have hle := (List.subperm_of_subset hpairs hsubset).length_le
  calc countFor db e c ct = l.length := rfl
    _ = (l.map (fun s => (s.judgeId, s.criteriaId))).length :=
        (List.length_map _ _).symm
    _ ≤ (js ×ˢ cs).length := hle
    _ = js.length * cs.length := List.length_product _ _

/-! ### C2: the lock completeness check -/

/-- **C2.** A tabulator lock request succeeds exactly when the number of
rows for (event, competition, contestant) — the just-upserted cells
included — equals `len(judges) * len(criteria_items)`; an insufficient
count yields the `IncompleteSubmission` rejection, the upserted cells stay
saved and unlocked and nothing becomes locked; a sufficient count locks
every row of the contestant.  The hypotheses are the schema's
`uq_score_entry` uniqueness and the fact that rows of this contestant
belong to the competition's judges and criteria. -/
theorem claim_C2 (cfg : Cfg) (db : List ScoreEntry) (j ct u : Nat)
    (values : Nat → ℚ)
    (hvalid : formValid cfg j ct values = true)
    (hnl : UnlockedFor cfg.eventId cfg.competitionId ct db)
    (hkeys : (db.map ScoreEntry.key).Nodup)
    (hcs : (cfg.criteriaItems.map Criterion.id).Nodup)
    (hmem : ∀ s ∈ db, s.eventId = cfg.eventId → s.competitionId = cfg.competitionId →
      s.contestantId = ct → s.judgeId ∈ cfg.judges.map Judge.id ∧
        s.criteriaId ∈ cfg.criteriaItems.map Criterion.id) :
    ((tabulatorSubmit cfg db j ct u values true).2 = TabOutcome.lockedAll ∨
     (tabulatorSubmit cfg db j ct u values true).2 = TabOutcome.rejectedIncomplete) ∧
    ((tabulatorSubmit cfg db j ct u values true).2 = TabOutcome.lockedAll ↔
      countFor (upsertAll cfg j ct u values db) cfg.eventId cfg.competitionId ct =
        cfg.judges.length * cfg.criteriaItems.length) ∧
    ((tabulatorSubmit cfg db j ct u values true).2 = TabOutcome.rejectedIncomplete →
      (tabulatorSubmit cfg db j ct u values true).1 = upsertAll cfg j ct u values db ∧
      countFor (upsertAll cfg j ct u values db) cfg.eventId cfg.competitionId ct <
        cfg.judges.length * cfg.criteriaItems.length ∧
      (∀ s ∈ (tabulatorSubmit cfg db j ct u values true).1,
        s.locked = true → s ∈ db) ∧
      (∀ cr ∈ cfg.criteriaItems, ∃ s ∈ (tabulatorSubmit cfg db j ct u values true).1,
        s.key = (cfg.eventId, cfg.competitionId, j, ct, cr.id) ∧
        s.score = values cr.id ∧ s.locked = false)) ∧
    ((tabulatorSubmit cfg db j ct u values true).2 = TabOutcome.lockedAll →
      ∀ s ∈ (tabulatorSubmit cfg db j ct u values true).1,
        s.eventId = cfg.eventId → s.competitionId = cfg.competitionId →
        s.contestantId = ct → s.locked = true) := by
  have hlock : lockedExists db cfg.eventId cfg.competitionId ct = false := by
    have hfilter : db.filter (fun s =>
        s.eventId == cfg.eventId && s.competitionId == cfg.competitionId &&
          s.contestantId == ct && s.locked) = [] := by
      rw [List.filter_eq_nil_iff]
      intro s hs hcond
      simp only [Bool.and_eq_true, beq_iff_eq] at hcond
      exact absurd hcond.2
        (by simp [hnl s hs hcond.1.1.1 hcond.1.1.2 hcond.1.2])
    simp [lockedExists, hfilter]
  have hj : j ∈ cfg.judges.map Judge.id := by
    have h1 := hvalid
    rw [formValid] at h1
    simp only [Bool.and_eq_true, List.any_eq_true, beq_iff_eq] at h1
    obtain ⟨⟨⟨x, hx, hxj⟩, _⟩, _⟩ := h1
    exact List.mem_map.mpr ⟨x, hx, hxj⟩
  have heq : tabulatorSubmit cfg db j ct u values true =
      (if countFor (upsertAll cfg j ct u values db) cfg.eventId cfg.competitionId ct <
          cfg.judges.length * cfg.criteriaItems.length then
        (upsertAll cfg j ct u values db, TabOutcome.rejectedIncomplete)
      else (lockAll cfg.eventId cfg.competitionId ct (upsertAll cfg j ct u values db),
        TabOutcome.lockedAll)) := by
    rw [tabulatorSubmit, if_neg (by simp [hvalid]), if_neg (by simp [hlock])]
    simp [upsertAll]
  have hkeys1 : ((upsertAll cfg j ct u values db).map ScoreEntry.key).Nodup :=
    upsertFold_keys_nodup cfg.eventId cfg.competitionId j ct u values
      cfg.criteriaItems db hkeys
  have hmem1 : ∀ s ∈ upsertAll cfg j ct u values db,
      s.eventId = cfg.eventId → s.competitionId = cfg.competitionId →
      s.contestantId = ct → s.judgeId ∈ cfg.judges.map Judge.id ∧
        s.criteriaId ∈ cfg.criteriaItems.map Criterion.id := by
    intro s hs h1 h2 h3
    rcases upsertFold_mem cfg.eventId cfg.competitionId j ct u values
        cfg.criteriaItems db s hs with h | h
    · exact hmem s h h1 h2 h3
    · exact ⟨h.2.2.1 ▸ hj, h.2.2.2.2⟩
  have hbound : countFor (upsertAll cfg j ct u values db)
      cfg.eventId cfg.competitionId ct ≤
      cfg.judges.length * cfg.criteriaItems.length := by
    have := countFor_le (upsertAll cfg j ct u values db) cfg.eventId
      cfg.competitionId ct (cfg.judges.map Judge.id)
      (cfg.criteriaItems.map Criterion.id) hkeys1 hmem1
    simpa using this
  have hun1 : UnlockedFor cfg.eventId cfg.competitionId ct
      (upsertAll cfg j ct u values db) :=
    upsertFold_unlockedFor cfg.eventId cfg.competitionId j ct u values
      cfg.criteriaItems db hnl
  by_cases hsaved : countFor (upsertAll cfg j ct u values db)
      cfg.eventId cfg.competitionId ct <
      cfg.judges.length * cfg.criteriaItems.length
  · rw [heq, if_pos hsaved]
    refine ⟨Or.inr rfl, ?_, ?_, ?_⟩
    · constructor
      · intro h; cases h
      · intro h; exact absurd h (Nat.ne_of_lt hsaved)
    · intro _
      refine ⟨rfl, hsaved, ?_, ?_⟩
      · intro s hs hl
        rcases upsertFold_mem cfg.eventId cfg.competitionId j ct u values
            cfg.criteriaItems db s hs with h | h
        · exact h
        · exact absurd hl (by simp [hun1 s hs h.1 h.2.1 h.2.2.2.1])
      · intro cr hcr
        exact upsertFold_written cfg.eventId cfg.competitionId j ct u values
          cfg.criteriaItems db hcs hnl cr hcr
    · intro h; cases h
  · rw [heq, if_neg hsaved]
    refine ⟨Or.inl rfl, ?_, ?_, ?_⟩
    · simp only [true_iff]
      exact le_antisymm hbound (Nat.le_of_not_lt hsaved)
    · intro h; cases h
    · intro _ s hs h1 h2 h3
      obtain ⟨x, hx, rfl⟩ := List.mem_map.mp hs
      by_cases hcond : (x.eventId == cfg.eventId &&
          x.competitionId == cfg.competitionId && x.contestantId == ct) = true
      · simp [hcond]
      · rw [if_neg (by simp [hcond])] at h1 h2 h3 ⊢
        exact absurd (by simp [h1, h2, h3] : _) hcond

/-- Witness for C2: two judges × two criteria with only three of the four
cells present after the upsert — the lock request is rejected as
incomplete (hence lands in the stated dichotomy). -/
theorem claim_C2_witness :
    (tabulatorSubmit ⟨1, 1, [⟨1, "J1"⟩, ⟨2, "J2"⟩],
        [⟨1, "A", 10, 60⟩, ⟨2, "B", 5, 40⟩], [⟨1, "X"⟩]⟩
      [⟨1, 1, 2, 1, 1, 9, 7, false⟩] 1 1 9
      (fun k => if k = 1 then 8 else 4) true).2 = TabOutcome.lockedAll ∨
    (tabulatorSubmit ⟨1, 1, [⟨1, "J1"⟩, ⟨2, "J2"⟩],
        [⟨1, "A", 10, 60⟩, ⟨2, "B", 5, 40⟩], [⟨1, "X"⟩]⟩
      [⟨1, 1, 2, 1, 1, 9, 7, false⟩] 1 1 9
      (fun k => if k = 1 then 8 else 4) true).2 = TabOutcome.rejectedIncomplete :=
  (claim_C2 ⟨1, 1, [⟨1, "J1"⟩, ⟨2, "J2"⟩], [⟨1, "A", 10, 60⟩, ⟨2, "B", 5, 40⟩],
      [⟨1, "X"⟩]⟩
    [⟨1, 1, 2, 1, 1, 9, 7, false⟩] 1 1 9 (fun k => if k = 1 then 8 else 4)
    (by decide)
    (by intro s hs h1 h2 h3; simp only [List.mem_singleton] at hs; subst hs; rfl)
    (by decide) (by decide) (by decide)).1

lemma unlockedFor_of_not_lockedExists (db : List ScoreEntry) (e c ct : Nat)
    (h : lockedExists db e c ct = false) : UnlockedFor e c ct db := by
  intro s hs h1 h2 h3
  by_contra hb
  have hl : s.locked = true := by
    cases hsl : s.locked
    · exact absurd hsl hb
    · rfl
  have hmem : s ∈ db.filter (fun s =>
      s.eventId == e && s.competitionId == c && s.contestantId == ct && s.locked) :=
    List.mem_filter.mpr ⟨hs, by simp [h1, h2, h3, hl]⟩
  rw [lockedExists] at h
  simp only [decide_eq_false_iff_not, Nat.not_lt, Nat.le_zero,
    List.length_eq_zero] at h
  rw [h] at hmem
  exact absurd hmem (List.not_mem_nil s)

lemma lockedExists_of_mem (db : List ScoreEntry) (e c ct : Nat)
    (s : ScoreEntry) (hs : s ∈ db) (h1 : s.eventId = e) (h2 : s.competitionId = c)
    (h3 : s.contestantId = ct) (hl : s.locked = true) :
    lockedExists db e c ct = true := by
  have hmem : s ∈ db.filter (fun s =>
      s.eventId == e && s.competitionId == c && s.contestantId == ct && s.locked) :=
    List.mem_filter.mpr ⟨hs, by simp [h1, h2, h3, hl]⟩
  rw [lockedExists]
  simp only [decide_eq_true_eq]
  exact List.length_pos.mpr (List.ne_nil_of_mem hmem)

lemma tabulatorSubmit_lock_eq (cfg : Cfg) (db : List ScoreEntry) (j ct u : Nat)
    (values : Nat → ℚ) (hv : formValid cfg j ct values = true)
    (hle : lockedExists db cfg.eventId cfg.competitionId ct = false) :
    tabulatorSubmit cfg db j ct u values true =
      (if countFor (upsertAll cfg j ct u values db) cfg.eventId cfg.competitionId ct <
          cfg.judges.length * cfg.criteriaItems.length then
        (upsertAll cfg j ct u values db, TabOutcome.rejectedIncomplete)
      else (lockAll cfg.eventId cfg.competitionId ct (upsertAll cfg j ct u values db),
        TabOutcome.lockedAll)) := by
  rw [tabulatorSubmit, if_neg (by simp [hv]), if_neg (by simp [hle])]
  simp [upsertAll]

lemma tabulatorSubmit_save_eq (cfg : Cfg) (db : List ScoreEntry) (j ct u : Nat)
    (values : Nat → ℚ) (hv : formValid cfg j ct values = true)
    (hle : lockedExists db cfg.eventId cfg.competitionId ct = false) :
    tabulatorSubmit cfg db j ct u values false =
      (upsertAll cfg j ct u values db, TabOutcome.saved) := by
  rw [tabulatorSubmit, if_neg (by simp [hv]), if_neg (by simp [hle])]
  rfl

lemma judgeSubmit_cases (cfg : Cfg) (db : List ScoreEntry) (j ct u : Nat)
    (values : Nat → ℚ) :
    (judgeSubmit cfg db j ct u values).1 = db ∨
    (judgeSubmit cfg db j ct u values) =
      (db ++ cfg.criteriaItems.map (fun cr =>
        ⟨cfg.eventId, cfg.competitionId, j, ct, cr.id, u, values cr.id, true⟩),
       JudgeOutcome.submitted) := by
  rw [judgeSubmit]
  split
  · exact Or.inl rfl
  split
  · exact Or.inl rfl
  split
  · exact Or.inl rfl
  split
  · exact Or.inl rfl
  · exact Or.inr rfl

/-! ### C3: permanence of the lock -/

/-- **C3, amended.** The `locked` flag is monotone under both routes: a
locked row survives every accepted request unchanged (in particular no
operation unlocks it), and the *tabulator* route rejects every write for a
contestant that has a locked row.  The judge ballot route, however, checks
only the submitting judge's own rows, so a different judge's ballot can
still succeed for a locked contestant (see the counterexample). -/
theorem claim_C3_amended (cfg : Cfg) :
    (∀ db db2, Step cfg db db2 → ∀ s ∈ db, s.locked = true → s ∈ db2) ∧
    (∀ db j ct u values lock (s0 : ScoreEntry), s0 ∈ db →
      s0.eventId = cfg.eventId → s0.competitionId = cfg.competitionId →
      s0.contestantId = ct → s0.locked = true →
      (tabulatorSubmit cfg db j ct u values lock).1 = db ∧
      ((tabulatorSubmit cfg db j ct u values lock).2 = TabOutcome.rejectedInvalid ∨
       (tabulatorSubmit cfg db j ct u values lock).2 = TabOutcome.rejectedLocked)) := by
  constructor
  · intro db db2 hstep
    cases hstep with
    | tabulator j ct u values lock =>
      intro s hs hl
      by_cases hv : formValid cfg j ct values = true
      · by_cases hle : lockedExists db cfg.eventId cfg.competitionId ct = true
        · rw [tabulatorSubmit, if_neg (by simp [hv]), if_pos hle]
          exact hs
        · have hnl := unlockedFor_of_not_lockedExists db cfg.eventId
            cfg.competitionId ct (Bool.not_eq_true _ ▸ hle)
          have hnomatch : ¬ (s.eventId = cfg.eventId ∧
              s.competitionId = cfg.competitionId ∧ s.contestantId = ct) := by
            rintro ⟨h1, h2, h3⟩
            exact absurd hl (by simp [hnl s hs h1 h2 h3])
          have hs1 : s ∈ upsertAll cfg j ct u values db := by
            apply upsertFold_preserve
            · exact hs
            · intro cr _ hkey
              apply hnomatch
              rw [ScoreEntry.key] at hkey
              exact ⟨congrArg (fun p : Nat × Nat × Nat × Nat × Nat => p.1) hkey,
                congrArg (fun p : Nat × Nat × Nat × Nat × Nat => p.2.1) hkey,
                congrArg (fun p : Nat × Nat × Nat × Nat × Nat => p.2.2.2.1) hkey⟩
          cases lock with
          | false =>
            rw [tabulatorSubmit_save_eq cfg db j ct u values hv
              (Bool.not_eq_true _ ▸ hle)]
            exact hs1
          | true =>
            rw [tabulatorSubmit_lock_eq cfg db j ct u values hv
              (Bool.not_eq_true _ ▸ hle)]
            split
            · exact hs1
            · refine List.mem_map.mpr ⟨s, hs1, ?_⟩
              rw [if_neg]
              intro hcond
              simp only [Bool.and_eq_true, beq_iff_eq] at hcond
              exact hnomatch ⟨hcond.1.1, hcond.1.2, hcond.2⟩
      · rw [tabulatorSubmit, if_pos (by simp [hv])]
        exact hs
    | judgeBallot j ct u values hj =>
      intro s hs hl
      rcases judgeSubmit_cases cfg db j ct u values with h | h
      · rw [h]; exact hs
      · rw [h]; exact List.mem_append_left _ hs
  · intro db j ct u values lock s0 hs0 h1 h2 h3 hl
    by_cases hv : formValid cfg j ct values = true
    · have hle := lockedExists_of_mem db cfg.eventId cfg.competitionId ct s0 hs0 h1 h2 h3 hl
      rw [tabulatorSubmit, if_neg (by simp [hv]), if_pos hle]
      exact ⟨rfl, Or.inr rfl⟩
    · rw [tabulatorSubmit, if_pos (by simp [hv])]
      exact ⟨rfl, Or.inl rfl⟩

/-- Witness for C3 (amended): a tabulator write against a contestant with a
locked row is rejected and changes nothing. -/
theorem claim_C3_amended_witness :
    (tabulatorSubmit ⟨1, 1, [⟨1, "J1"⟩, ⟨2, "J2"⟩], [⟨1, "A", 10, 60⟩], [⟨1, "X"⟩]⟩
        [⟨1, 1, 1, 1, 1, 9, 5, true⟩] 1 1 9 (fun _ => 5) true).1 =
      [⟨1, 1, 1, 1, 1, 9, 5, true⟩] ∧
    ((tabulatorSubmit ⟨1, 1, [⟨1, "J1"⟩, ⟨2, "J2"⟩], [⟨1, "A", 10, 60⟩], [⟨1, "X"⟩]⟩
        [⟨1, 1, 1, 1, 1, 9, 5, true⟩] 1 1 9 (fun _ => 5) true).2 =
      TabOutcome.rejectedInvalid ∨
     (tabulatorSubmit ⟨1, 1, [⟨1, "J1"⟩, ⟨2, "J2"⟩], [⟨1, "A", 10, 60⟩], [⟨1, "X"⟩]⟩
        [⟨1, 1, 1, 1, 1, 9, 5, true⟩] 1 1 9 (fun _ => 5) true).2 =
      TabOutcome.rejectedLocked) :=
  (claim_C3_amended ⟨1, 1, [⟨1, "J1"⟩, ⟨2, "J2"⟩], [⟨1, "A", 10, 60⟩], [⟨1, "X"⟩]⟩).2
    [⟨1, 1, 1, 1, 1, 9, 5, true⟩] 1 1 9 (fun _ => 5) true
    ⟨1, 1, 1, 1, 1, 9, 5, true⟩ (by decide) rfl rfl rfl rfl

/-- One judge's complete ballot, submitted from the empty ledger — its rows
are created with `locked=True`. -/
def exBallotDb : List ScoreEntry :=
  (judgeSubmit ⟨1, 1, [⟨1, "J1"⟩, ⟨2, "J2"⟩], [⟨1, "A", 10, 60⟩], [⟨1, "X"⟩]⟩
    [] 1 1 9 (fun _ => 5)).1

/-- **C3, counterexample.** A reachable state in which the contestant has a
locked row (judge 1's one-shot ballot), yet a subsequent upsert for that
contestant succeeds: judge 2's ballot goes through, because the judge route
only inspects the submitting judge's own rows. -/
theorem claim_C3_counterexample :
    Reachable ⟨1, 1, [⟨1, "J1"⟩, ⟨2, "J2"⟩], [⟨1, "A", 10, 60⟩], [⟨1, "X"⟩]⟩
      exBallotDb ∧
    (∃ s ∈ exBallotDb, s.eventId = 1 ∧ s.competitionId = 1 ∧
      s.contestantId = 1 ∧ s.locked = true) ∧
    (judgeSubmit ⟨1, 1, [⟨1, "J1"⟩, ⟨2, "J2"⟩], [⟨1, "A", 10, 60⟩], [⟨1, "X"⟩]⟩
      exBallotDb 2 1 9 (fun _ => 6)).2 = JudgeOutcome.submitted ∧
    (judgeSubmit ⟨1, 1, [⟨1, "J1"⟩, ⟨2, "J2"⟩], [⟨1, "A", 10, 60⟩], [⟨1, "X"⟩]⟩
      exBallotDb 2 1 9 (fun _ => 6)).1 ≠ exBallotDb := by
  refine ⟨?_, by decide, by decide, by decide⟩
  exact Relation.ReflTransGen.single
    (Step.judgeBallot [] 1 1 9 (fun _ => 5) (by decide))

/-! ### C4: accepted writes and the locked flag -/

/-- **C4, counterexample.** The claim says every accepted write leaves the
written rows unlocked — but a judge ballot creates all its rows with
`locked=True` (`app/judge/routes.py`, line 131). -/
theorem claim_C4_counterexample :
    (judgeSubmit ⟨1, 1, [⟨1, "J1"⟩, ⟨2, "J2"⟩], [⟨1, "A", 10, 60⟩], [⟨1, "X"⟩]⟩
      [] 1 1 9 (fun _ => 5)).2 = JudgeOutcome.submitted ∧
    (judgeSubmit ⟨1, 1, [⟨1, "J1"⟩, ⟨2, "J2"⟩], [⟨1, "A", 10, 60⟩], [⟨1, "X"⟩]⟩
      [] 1 1 9 (fun _ => 5)).1 ≠ [] ∧
    ∀ s ∈ (judgeSubmit ⟨1, 1, [⟨1, "J1"⟩, ⟨2, "J2"⟩], [⟨1, "A", 10, 60⟩], [⟨1, "X"⟩]⟩
      [] 1 1 9 (fun _ => 5)).1, s.locked = true := by
  decide

/-- **C4, amended.** Tabulator-accepted writes leave the written rows
unlocked — rows become locked only through the explicit lock action after
the completeness check — whereas judge-ballot rows are created already
locked (one-shot ballots). -/
theorem claim_C4_amended (cfg : Cfg) (db : List ScoreEntry) (j ct u : Nat)
    (values : Nat → ℚ) :
    ((tabulatorSubmit cfg db j ct u values false).2 = TabOutcome.saved →
      ∀ s ∈ (tabulatorSubmit cfg db j ct u values false).1,
        s.locked = true → s ∈ db) ∧
    ((tabulatorSubmit cfg db j ct u values true).2 = TabOutcome.rejectedIncomplete →
      ∀ s ∈ (tabulatorSubmit cfg db j ct u values true).1,
        s.locked = true → s ∈ db) ∧
    ((judgeSubmit cfg db j ct u values).2 = JudgeOutcome.submitted →
      ∀ s ∈ (judgeSubmit cfg db j ct u values).1, s ∉ db → s.locked = true) := by
  have hupserted : lockedExists db cfg.eventId cfg.competitionId ct = false →
      ∀ s ∈ upsertAll cfg j ct u values db, s.locked = true → s ∈ db := by
    intro hle s hs hl
    have hnl := unlockedFor_of_not_lockedExists db cfg.eventId cfg.competitionId ct hle
    have hun1 := upsertFold_unlockedFor cfg.eventId cfg.competitionId j ct u values
      cfg.criteriaItems db hnl
    rcases upsertFold_mem cfg.eventId cfg.competitionId j ct u values
        cfg.criteriaItems db s hs with h | h
    · exact h
    · exact absurd hl (by simp [hun1 s hs h.1 h.2.1 h.2.2.2.1])
  refine ⟨?_, ?_, ?_⟩
  · intro hout
    by_cases hv : formValid cfg j ct values = true
    · by_cases hle : lockedExists db cfg.eventId cfg.competitionId ct = true
      · rw [tabulatorSubmit, if_neg (by simp [hv]), if_pos hle] at hout
        cases hout
      · rw [tabulatorSubmit_save_eq cfg db j ct u values hv
          (Bool.not_eq_true _ ▸ hle)]
        exact hupserted (Bool.not_eq_true _ ▸ hle)
    · rw [tabulatorSubmit, if_pos (by simp [hv])] at hout
      cases hout
  · intro hout
    by_cases hv : formValid cfg j ct values = true
    · by_cases hle : lockedExists db cfg.eventId cfg.competitionId ct = true
      · rw [tabulatorSubmit, if_neg (by simp [hv]), if_pos hle] at hout
        cases hout
      · rw [tabulatorSubmit_lock_eq cfg db j ct u values hv
          (Bool.not_eq_true _ ▸ hle)] at hout ⊢
        split at hout
        · rw [if_pos (by assumption)]
          exact hupserted (Bool.not_eq_true _ ▸ hle)
        · simp at hout
    · rw [tabulatorSubmit, if_pos (by simp [hv])] at hout
      cases hout
  · intro _ s hs hnotdb
    rcases judgeSubmit_cases cfg db j ct u values with h | h
    · rw [h] at hs
      exact absurd hs hnotdb
    · rw [h] at hs
      rcases List.mem_append.mp hs with h1 | h1
      · exact absurd h1 hnotdb
      · obtain ⟨cr, _, rfl⟩ := List.mem_map.mp h1
        rfl

/-- Witness for C4 (amended): the judge-ballot conjunct applied to a fresh
ballot — all created rows are locked. -/
theorem claim_C4_amended_witness :
    ∀ s ∈ (judgeSubmit ⟨1, 1, [⟨1, "J1"⟩, ⟨2, "J2"⟩], [⟨1, "A", 10, 60⟩], [⟨1, "X"⟩]⟩
      [] 1 1 9 (fun _ => 5)).1, s ∉ ([] : List ScoreEntry) → s.locked = true :=
  (claim_C4_amended ⟨1, 1, [⟨1, "J1"⟩, ⟨2, "J2"⟩], [⟨1, "A", 10, 60⟩], [⟨1, "X"⟩]⟩
    [] 1 1 9 (fun _ => 5)).2.2 (by decide)

/-! ### C7: the judge resubmission check -/

/-- **C7, counterexample.** The claim says a ballot is rejected *exactly
when* the judge already has a complete ballot, and that a judge with only
some criteria filled may still submit.  The route, however, also rejects on
`existing_count > 0`: with two criteria and a single existing row for the
judge and contestant (an incomplete ballot), the submission is rejected with
`Scores already submitted`. -/
theorem claim_C7_counterexample :
    judgeEntryCount [⟨1, 1, 1, 1, 1, 9, 8, false⟩] 1 1 1 1 = 1 ∧
    ([⟨1, "A", 10, 60⟩, ⟨2, "B", 5, 40⟩] : List Criterion).length = 2 ∧
    (judgeSubmit ⟨1, 1, [⟨1, "J1"⟩], [⟨1, "A", 10, 60⟩, ⟨2, "B", 5, 40⟩], [⟨1, "X"⟩]⟩
      [⟨1, 1, 1, 1, 1, 9, 8, false⟩] 1 1 9 (fun _ => 5)).2 =
      JudgeOutcome.rejectedAlready ∧
    (judgeSubmit ⟨1, 1, [⟨1, "J1"⟩], [⟨1, "A", 10, 60⟩, ⟨2, "B", 5, 40⟩], [⟨1, "X"⟩]⟩
      [⟨1, 1, 1, 1, 1, 9, 8, false⟩] 1 1 9 (fun _ => 5)).1 =
      [⟨1, 1, 1, 1, 1, 9, 8, false⟩] := by
  decide

/-- **C7, amended.** A valid judge ballot for a contestant is rejected with
`AlreadySubmitted` exactly when the judge already has *at least one* score
row for that contestant (a complete ballot being a special case — the
`scored_contestants` test is subsumed by the `existing_count > 0` test);
a rejected submission performs no mutation. -/
theorem claim_C7_amended (cfg : Cfg) (db : List ScoreEntry) (j ct u : Nat)
    (values : Nat → ℚ)
    (hform : judgeFormValid cfg values = true)
    (hct : (cfg.contestants.any fun x => x.id == ct) = true) :
    ((judgeSubmit cfg db j ct u values).2 = JudgeOutcome.rejectedAlready ↔
      0 < judgeEntryCount db cfg.eventId cfg.competitionId j ct) ∧
    ((judgeSubmit cfg db j ct u values).2 = JudgeOutcome.rejectedAlready →
      (judgeSubmit cfg db j ct u values).1 = db) := by
  have hscored : ct ∈ judgeScoredContestants cfg db j →
      0 < judgeEntryCount db cfg.eventId cfg.competitionId j ct := by
    intro hmem
    rw [judgeScoredContestants] at hmem
    split at hmem
    · rename_i hcond
      obtain ⟨x, hx, hxid⟩ := List.mem_map.mp hmem
      obtain ⟨_, hxcount⟩ := List.mem_filter.mp hx
      rw [beq_iff_eq] at hxcount
      rw [← hxid, hxcount]
      simp only [Bool.and_eq_true, Bool.not_eq_true', List.isEmpty_eq_false] at hcond
      exact List.length_pos.mpr hcond.1
    · exact absurd hmem (List.not_mem_nil ct)
  rw [judgeSubmit, if_neg (by simp [hform]), if_neg (by simp [hct])]
  by_cases hsc : ct ∈ judgeScoredContestants cfg db j
  · rw [if_pos hsc]
    exact ⟨⟨fun _ => hscored hsc, fun _ => rfl⟩, fun _ => rfl⟩
  · rw [if_neg hsc]
    by_cases hcount : 0 < judgeEntryCount db cfg.eventId cfg.competitionId j ct
    · rw [if_pos hcount]
      exact ⟨⟨fun _ => hcount, fun _ => rfl⟩, fun _ => rfl⟩
    · rw [if_neg hcount]
      refine ⟨⟨fun h => ?_, fun h => ?_⟩, fun h => ?_⟩
      · simp at h
      · exact absurd h hcount
      · simp at h

/-- Witness for C7 (amended) at the single-existing-row instance. -/
theorem claim_C7_amended_witness :
    ((judgeSubmit ⟨1, 1, [⟨1, "J1"⟩], [⟨1, "A", 10, 60⟩, ⟨2, "B", 5, 40⟩], [⟨1, "X"⟩]⟩
        [⟨1, 1, 1, 1, 1, 9, 8, false⟩] 1 1 9 (fun _ => 5)).2 =
        JudgeOutcome.rejectedAlready ↔
      0 < judgeEntryCount [⟨1, 1, 1, 1, 1, 9, 8, false⟩]
        (⟨1, 1, [⟨1, "J1"⟩], [⟨1, "A", 10, 60⟩, ⟨2, "B", 5, 40⟩],
          [⟨1, "X"⟩]⟩ : Cfg).eventId
        (⟨1, 1, [⟨1, "J1"⟩], [⟨1, "A", 10, 60⟩, ⟨2, "B", 5, 40⟩],
          [⟨1, "X"⟩]⟩ : Cfg).competitionId 1 1) ∧
    ((judgeSubmit ⟨1, 1, [⟨1, "J1"⟩], [⟨1, "A", 10, 60⟩, ⟨2, "B", 5, 40⟩], [⟨1, "X"⟩]⟩
        [⟨1, 1, 1, 1, 1, 9, 8, false⟩] 1 1 9 (fun _ => 5)).2 =
        JudgeOutcome.rejectedAlready →
      (judgeSubmit ⟨1, 1, [⟨1, "J1"⟩], [⟨1, "A", 10, 60⟩, ⟨2, "B", 5, 40⟩], [⟨1, "X"⟩]⟩
        [⟨1, 1, 1, 1, 1, 9, 8, false⟩] 1 1 9 (fun _ => 5)).1 =
        [⟨1, 1, 1, 1, 1, 9, 8, false⟩]) :=
  claim_C7_amended ⟨1, 1, [⟨1, "J1"⟩], [⟨1, "A", 10, 60⟩, ⟨2, "B", 5, 40⟩], [⟨1, "X"⟩]⟩
    [⟨1, 1, 1, 1, 1, 9, 8, false⟩] 1 1 9 (fun _ => 5) (by decide) (by decide)

/-! ### C10: the per-judge 100-point cap -/

lemma breakdownFold_total (scores : List ScoreEntry) (j ctid : Nat) :
    ∀ (L : List Criterion) (a : ℚ),
      L.foldl (fun acc cr =>
        match scoreLookupGet scores j ctid cr.id with
        | some r => if cr.maxScore ≠ 0 then acc + (r / cr.maxScore) * cr.weight else acc
        | none => acc) a =
      a + (L.map fun cr =>
        match scoreLookupGet scores j ctid cr.id with
        | some r => if cr.maxScore ≠ 0 then (r / cr.maxScore) * cr.weight else 0
        | none => 0).sum := by
  intro L
  induction L with
  | nil => intro a; simp
  | cons cr rest ih =>
    intro a
    rw [List.foldl_cons, List.map_cons, List.sum_cons, ih]
    rcases h : scoreLookupGet scores j ctid cr.id with _ | r
    · simp [h]
    · by_cases hm : cr.maxScore = 0
      · simp [h, hm]
      · simp only [h, hm, ne_eq, not_false_iff, if_true]
        ring

lemma breakdownRow_total (scores : List ScoreEntry) (criteriaItems : List Criterion)
    (j : Nat) (ct : Contestant) :
    (breakdownRow scores criteriaItems j ct).total =
      min (judgeWeightedTotal scores criteriaItems j ct.id) 100 := by
  rw [breakdownRow, judgeWeightedTotal]
  simp only []
  rw [breakdownFold_total scores j ct.id criteriaItems 0, zero_add]

/-- **C10.** In every per-judge breakdown row — in the live `scoring` view
and in the historical `_build_judge_breakdown` alike — the per-judge total
is clamped to `min(total, 100.0)`, the same 100-point cap the aggregate
`_calculate_results` applies. -/
theorem claim_C10 (db : List ScoreEntry) (e c : Nat) (judges : List Judge)
    (contestants : List Contestant) (criteriaItems : List Criterion) :
    (∀ p ∈ scoring_breakdown db e c judges contestants criteriaItems,
      ∀ row ∈ p.2, ∃ ct ∈ contestants,
        row = breakdownRow (scoresForEventComp db e c) criteriaItems p.1.id ct ∧
        row.total = min (judgeWeightedTotal (scoresForEventComp db e c)
          criteriaItems p.1.id ct.id) 100 ∧
        row.total ≤ 100) ∧
    (∀ p ∈ build_judge_breakdown db e c judges contestants criteriaItems,
      ∀ row ∈ p.2, ∃ ct ∈ contestants,
        row = breakdownRow (scoresForEventComp db e c) criteriaItems p.1.id ct ∧
        row.total = min (judgeWeightedTotal (scoresForEventComp db e c)
          criteriaItems p.1.id ct.id) 100 ∧
        row.total ≤ 100) := by
  constructor
  · intro p hp row hrow
    simp only [scoring_breakdown, List.mem_map] at hp
    obtain ⟨jj, hjj, rfl⟩ := hp
    obtain ⟨ct, hct, rfl⟩ := List.mem_map.mp hrow
    refine ⟨ct, hct, rfl, breakdownRow_total _ _ _ _, ?_⟩
    rw [breakdownRow_total]
    exact min_le_right _ _
  · intro p hp row hrow
    simp only [build_judge_breakdown, List.mem_map] at hp
    obtain ⟨jj, hjj, rfl⟩ := hp
    obtain ⟨ct, hct, rfl⟩ := List.mem_map.mp hrow
    refine ⟨ct, hct, rfl, breakdownRow_total _ _ _ _, ?_⟩
    rw [breakdownRow_total]
    exact min_le_right _ _

/-- Witness for C10: two criteria of weight 70 scored at the maximum give a
per-judge breakdown row (judge 1, live view) whose total is capped. -/
theorem claim_C10_witness :
    ∃ ct ∈ [exContestantX],
      breakdownRow (scoresForEventComp exScores70 1 1) exCriteria70 1 exContestantX =
        breakdownRow (scoresForEventComp exScores70 1 1) exCriteria70
          ((⟨1, "J1"⟩ : Judge),
            [exContestantX].map (breakdownRow (scoresForEventComp exScores70 1 1)
              exCriteria70 1)).1.id ct ∧
      (breakdownRow (scoresForEventComp exScores70 1 1) exCriteria70 1
          exContestantX).total =
        min (judgeWeightedTotal (scoresForEventComp exScores70 1 1) exCriteria70
          ((⟨1, "J1"⟩ : Judge),
            [exContestantX].map (breakdownRow (scoresForEventComp exScores70 1 1)
              exCriteria70 1)).1.id ct.id) 100 ∧
      (breakdownRow (scoresForEventComp exScores70 1 1) exCriteria70 1
          exContestantX).total ≤ 100 :=
  (claim_C10 exScores70 1 1 [⟨1, "J1"⟩, ⟨2, "J2"⟩] [exContestantX] exCriteria70).1
    ((⟨1, "J1"⟩ : Judge),
      [exContestantX].map (breakdownRow (scoresForEventComp exScores70 1 1)
        exCriteria70 1))
    (by decide)
    (breakdownRow (scoresForEventComp exScores70 1 1) exCriteria70 1 exContestantX)
    (by decide)

/-! ### C8: cell contents of the rendered report -/

lemma stringMk_data (s : String) : String.mk s.data = s := by
  cases s
  rfl

lemma ellipsize_of_le (w : List Char → ℚ) (t : List Char) (maxW : ℚ)
    (h : w t ≤ maxW) : ellipsize w t maxW = t := by
  rw [ellipsize, if_pos h]

lemma ellipsizeS_of_le (w : List Char → ℚ) (s : String) (maxW : ℚ)
    (h : w s.data ≤ maxW) : ellipsizeS w s maxW = s := by
  rw [ellipsizeS, ellipsize_of_le w s.data maxW h, stringMk_data]

/-- **C8, counterexample.** The claim says the total cell renders the
clamped weighted total to **2** decimal places — but the code formats it
with the same `_format_score` (`f"{value:.4f}"`) as the criterion cells:
for a row with total 80 the emitted total cell reads `"80.0000"`, not
`"80.00"`. -/
theorem claim_C8_counterexample :
    bodyRowCells (fun l => (l.length : ℚ)) 40 18 22
      [⟨1, "A", 10, 60⟩, ⟨2, "B", 5, 40⟩] 1
      ⟨"X", 80, 12, [(1, 48), (2, 32)], [(1, 8), (2, 4)]⟩ =
      ["1", "X", "48.0000(8.0000)", "32.0000(4.0000)", "80.0000"] ∧
    "80.0000" ≠ "80.00" := by
  decide

/-- **C8, amended.** Each criterion cell renders
`"{weightedTotal}({rawAverage})"` via `_format_score`, the rank cell is
`str(index)` for the 1-based position of the row, and the total cell
renders the clamped weighted total through the same `_format_score` — i.e.
to **4** decimal places, like the criterion cells; `_format_score` always
emits exactly four fractional digits.  (The fit hypotheses state that the
cell texts are narrower than their columns, so the ellipsis step is the
identity.) -/
theorem claim_C8_amended (w : List Char → ℚ) (cw crw tw : ℚ)
    (criteriaItems : List Criterion) (results : List ResultRow)
    (i : Nat) (row : ResultRow)
    (hrow : results[i]? = some row)
    (hname : w row.contestant.data ≤ cw)
    (hcrit : ∀ item ∈ criteriaItems, w (criterionCellText row item).data ≤ crw)
    (htotal : w (format_score row.total).data ≤ tw) :
    (bodyRows w cw crw tw criteriaItems results)[i]? =
      some ([toString (i + 1), row.contestant]
        ++ criteriaItems.map (fun item => criterionCellText row item)
        ++ [format_score row.total]) ∧
    (∀ q : ℚ, ∃ a b : String, format_score q = a ++ "." ++ b ∧ b.length = 4) := by
  constructor
  · rw [bodyRows, List.getElem?_map, List.getElem?_enum, hrow]
    simp only [Option.map_some']
    congr 1
    rw [bodyRowCells, ellipsizeS_of_le w row.contestant cw hname,
      ellipsizeS_of_le w (format_score row.total) tw htotal]
    congr 1
    congr 1
    exact List.map_congr_left fun item hitem =>
      ellipsizeS_of_le w (criterionCellText row item) crw (hcrit item hitem)
  · intro q
    refine ⟨(if roundHalfEven (q * 10000) < 0 then "-" else "") ++
      toString ((roundHalfEven (q * 10000)).natAbs / 10000),
      String.mk [digitChar ((roundHalfEven (q * 10000)).natAbs % 10000 / 1000),
        digitChar ((roundHalfEven (q * 10000)).natAbs % 10000 / 100 % 10),
        digitChar ((roundHalfEven (q * 10000)).natAbs % 10000 / 10 % 10),
        digitChar ((roundHalfEven (q * 10000)).natAbs % 10000 % 10)], rfl, rfl⟩

/-- Witness for C8 (amended): the concrete row with total 80 under the
character-count width metric and the code's column widths. -/
theorem claim_C8_amended_witness :
    (bodyRows (fun l => (l.length : ℚ)) 40 18 22 [⟨1, "A", 10, 60⟩, ⟨2, "B", 5, 40⟩]
      [⟨"X", 80, 12, [(1, 48), (2, 32)], [(1, 8), (2, 4)]⟩])[0]? =
      some ([toString (0 + 1),
        (⟨"X", 80, 12, [(1, 48), (2, 32)], [(1, 8), (2, 4)]⟩ : ResultRow).contestant]
        ++ [⟨1, "A", 10, 60⟩, ⟨2, "B", 5, 40⟩].map (fun item =>
          criterionCellText ⟨"X", 80, 12, [(1, 48), (2, 32)], [(1, 8), (2, 4)]⟩ item)
        ++ [format_score
          (⟨"X", 80, 12, [(1, 48), (2, 32)], [(1, 8), (2, 4)]⟩ : ResultRow).total]) ∧
    (∀ q : ℚ, ∃ a b : String, format_score q = a ++ "." ++ b ∧ b.length = 4) :=
  claim_C8_amended (fun l => (l.length : ℚ)) 40 18 22
    [⟨1, "A", 10, 60⟩, ⟨2, "B", 5, 40⟩]
    [⟨"X", 80, 12, [(1, 48), (2, 32)], [(1, 8), (2, 4)]⟩] 0
    ⟨"X", 80, 12, [(1, 48), (2, 32)], [(1, 8), (2, 4)]⟩
    (by decide) (by decide) (by decide) (by decide)

/-! ### C9: the header-fit search -/

lemma trimRev_spec (w : List Char → ℚ) (maxW : ℚ) :
    ∀ rt : List Char, trimRev w maxW rt = [] ∨
      ¬ maxW < w ((trimRev w maxW rt).reverse ++ ellipsisChars) := by
  intro rt
  induction rt with
  | nil => exact Or.inl rfl
  | cons ch rest ih =>
    rw [trimRev]
    by_cases h : maxW < w ((ch :: rest).reverse ++ ellipsisChars)
    · rw [if_pos h]; exact ih
    · rw [if_neg h]; exact Or.inr h

lemma ellipsize_width_le (w : List Char → ℚ) (t : List Char) (maxW : ℚ)
    (hell : w ellipsisChars ≤ maxW) : w (ellipsize w t maxW) ≤ maxW := by
  rw [ellipsize]
  by_cases h1 : w t ≤ maxW
  · rw [if_pos h1]; exact h1
  · rw [if_neg h1]
    by_cases h2 : maxW ≤ w ellipsisChars
    · rw [if_pos h2]; exact hell
    · rw [if_neg h2]
      rcases trimRev_spec w maxW t.reverse with h | h
      · rw [trimLoop, h]
        simpa using hell
      · rw [trimLoop]
        exact le_of_not_lt h

lemma split_header_label_width_le (w : List Char → ℚ) (text : List Char)
    (maxW : ℚ) (hell : w ellipsisChars ≤ maxW) (hnil : w [] ≤ maxW) :
    w (split_header_label w text maxW).1 ≤ maxW ∧
    w (split_header_label w text maxW).2 ≤ maxW := by
  rw [split_header_label]
  by_cases h1 : w text ≤ maxW
  · rw [if_pos h1]
    exact ⟨h1, hnil⟩
  · rw [if_neg h1]
    by_cases h2 : (splitWords text).length ≤ 1
    · rw [if_pos h2]
      exact ⟨ellipsize_width_le w text maxW hell, hnil⟩
    · rw [if_neg h2]
      exact ⟨ellipsize_width_le w _ maxW hell, ellipsize_width_le w _ maxW hell⟩

lemma mem_sizesDesc (maxS minS x : Nat) (h : minS ≤ maxS) :
    x ∈ sizesDesc maxS minS ↔ minS ≤ x ∧ x ≤ maxS := by
  rw [sizesDesc]
  simp only [List.mem_map, List.mem_range]
  constructor
  · rintro ⟨i, hi, rfl⟩
    omega
  · rintro ⟨h1, h2⟩
    exact ⟨maxS - x, by omega, by omega⟩

lemma sizesDesc_pairwise (maxS minS : Nat) :
    (sizesDesc maxS minS).Pairwise (· > ·) := by
  rw [sizesDesc]
  have h1 : (List.range (maxS + 1 - minS)).Pairwise
      (fun a b => a < b ∧ b < maxS + 1 - minS) := by
    refine (List.pairwise_lt_range _).imp_of_mem ?_
    intro a b _ hb hab
    exact ⟨hab, List.mem_range.mp hb⟩
  refine List.Pairwise.map _ ?_ h1
  intro a b hab
  omega

lemma find?_first_desc (p : Nat → Bool) :
    ∀ (l : List Nat), l.Pairwise (· > ·) → ∀ a, l.find? p = some a →
      ∀ x ∈ l, a < x → p x = false := by
  intro l
  induction l with
  | nil => intro _ a h; cases h
  | cons y rest ih =>
    intro hpw a hfind x hx hax
    by_cases hp : p y = true
    · rw [List.find?_cons_of_pos _ hp] at hfind
      injection hfind with hya
      subst hya
      rcases List.mem_cons.mp hx with rfl | hx2
      · omega
      · have := (List.pairwise_cons.mp hpw).1 x hx2
        omega
    · rw [List.find?_cons_of_neg _ hp] at hfind
      rcases List.mem_cons.mp hx with rfl | hx2
      · exact Bool.not_eq_true _ ▸ hp
      · exact ih (List.pairwise_cons.mp hpw).2 a hfind x hx2 hax

/-- **C9, counterexample.** The claim says headers are never truncated
before the font has been reduced to the floor.  But `_split_header_label`
ellipsizes its lines *before* the fit test of `_fit_header_font_size`:
with a single word twice too wide for its column at every size (character
widths `W=10`, other glyphs 1, column 30), the search accepts the very
first size 9 — the truncated `"..."` line fits — and the emitted header is
the ellipsis, although the floor 6 was never reached. -/
theorem claim_C9_counterexample :
    fit_header_font_size
      (fun size l =>
        (size : ℚ) * (l.map (fun ch => if ch = 'W' then (10 : ℚ) else 1)).sum)
      [(['W', 'W'], 30)] 9 6 = 9 ∧
    (split_header_label
      ((fun size l =>
        (size : ℚ) * (l.map (fun ch => if ch = 'W' then (10 : ℚ) else 1)).sum) 9)
      ['W', 'W'] 30).1 = ellipsisChars ∧
    ellipsisChars ≠ ['W', 'W'] ∧ (9 : Nat) ≠ 6 := by
  decide

/-- **C9, amended.** `_fit_header_font_size` is a monotone one-unit-at-a-time
downward search: the returned size lies in `[min_size, max_size]`, every
larger size in range fails the (post-truncation) fit test, and the returned
size passes it unless the floor was reached with nothing fitting.  At any
size — the chosen one included — no emitted header line is wider than its
column, provided the ellipsis itself (and the empty line) fit the column;
but since each candidate line is ellipsized before the test, a label may be
truncated at the initial size without the font ever being reduced. -/
theorem claim_C9_amended (sw : Nat → List Char → ℚ)
    (labels : List (List Char × ℚ)) (maxSize minSize : Nat)
    (hms : minSize ≤ maxSize) :
    (minSize ≤ fit_header_font_size sw labels maxSize minSize ∧
     fit_header_font_size sw labels maxSize minSize ≤ maxSize) ∧
    (∀ size, fit_header_font_size sw labels maxSize minSize < size →
      size ≤ maxSize →
      (labels.all fun p => labelFits (sw size) p.1 p.2) = false) ∧
    ((labels.all fun p =>
        labelFits (sw (fit_header_font_size sw labels maxSize minSize)) p.1 p.2) =
        true ∨
      fit_header_font_size sw labels maxSize minSize = minSize) ∧
    (∀ size, ∀ text width, (text, width) ∈ labels →
      sw size ellipsisChars ≤ width → sw size [] ≤ width →
      sw size (split_header_label (sw size) text width).1 ≤ width ∧
      sw size (split_header_label (sw size) text width).2 ≤ width) := by
  have hlast : ∀ size, ∀ text width, (text, width) ∈ labels →
      sw size ellipsisChars ≤ width → sw size [] ≤ width →
      sw size (split_header_label (sw size) text width).1 ≤ width ∧
      sw size (split_header_label (sw size) text width).2 ≤ width := by
    intro size text width _ hell hnil
    exact split_header_label_width_le (sw size) text width hell hnil
  rcases hfind : (sizesDesc maxSize minSize).find? (fun size =>
      labels.all fun p => labelFits (sw size) p.1 p.2) with _ | s
  · have hfit : fit_header_font_size sw labels maxSize minSize = minSize := by
      rw [fit_header_font_size, hfind]
    refine ⟨⟨by rw [hfit], by rw [hfit]; exact hms⟩, ?_, Or.inr hfit, hlast⟩
    intro size hlt hle
    rw [hfit] at hlt
    have hmem : size ∈ sizesDesc maxSize minSize :=
      (mem_sizesDesc maxSize minSize size hms).mpr ⟨by omega, hle⟩
    have := List.find?_eq_none.mp hfind size hmem
    exact Bool.not_eq_true _ ▸ this
  · have hfit : fit_header_font_size sw labels maxSize minSize = s := by
      rw [fit_header_font_size, hfind]
    have hmem := List.mem_of_find?_eq_some hfind
    have hbounds := (mem_sizesDesc maxSize minSize s hms).mp hmem
    refine ⟨⟨by rw [hfit]; exact hbounds.1, by rw [hfit]; exact hbounds.2⟩,
      ?_, ?_, hlast⟩
    · intro size hlt hle
      rw [hfit] at hlt
      have hmem2 : size ∈ sizesDesc maxSize minSize :=
        (mem_sizesDesc maxSize minSize size hms).mpr
          ⟨by have := hbounds.1; omega, hle⟩
      exact find?_first_desc _ (sizesDesc maxSize minSize)
        (sizesDesc_pairwise maxSize minSize) s hfind size hmem2 hlt
    · left
      rw [hfit]
      have := List.find?_some hfind
      simpa using this

/-- Witness for C9 (amended) at the single-label instance of the
counterexample. -/
theorem claim_C9_amended_witness :
    (6 ≤ fit_header_font_size
        (fun size l =>
          (size : ℚ) * (l.map (fun ch => if ch = 'W' then (10 : ℚ) else 1)).sum)
        [(['W', 'W'], 30)] 9 6 ∧
     fit_header_font_size
        (fun size l =>
          (size : ℚ) * (l.map (fun ch => if ch = 'W' then (10 : ℚ) else 1)).sum)
        [(['W', 'W'], 30)] 9 6 ≤ 9) :=
  (claim_C9_amended
    (fun size l =>
      (size : ℚ) * (l.map (fun ch => if ch = 'W' then (10 : ℚ) else 1)).sum)
    [(['W', 'W'], 30)] 9 6 (by decide)).1

end LitmusEU
